import Mathlib

/-!
# Fixed-size queue and blocking queue

A shallow embedding of `Queue.c` (array-based ring buffer) and `BlockingQueue.c`
(the same buffer guarded by one mutex and two counting semaphores), followed by
theorems about the embedded functions.

Modelling conventions.

* A `void*` is an address: a natural number, `0` being the null pointer.
* The C `int` fields are integers.  On a state reachable from a constructor every
  `int` expression of `Queue.c` has a value between `0` and `max_size`, so the
  arithmetic is done in `ℤ`; the C operator `%` is truncated remainder, `Int.tmod`.
  The one expression that can leave the range of `int` is the loop bound
  `max_size + 1` of `BlockingQueue_clear`, and only for `max_size = INT_MAX`; there the
  loop asks `sem_post` to raise `empty_slots` above `SEM_VALUE_MAX`, the call fails
  and `cleanup_exit` ends the process, which the embedding of that loop reproduces.
* The storage block `array` is a list of slots.  `malloc` does not initialise the
  block, so the constructor takes the indeterminate initial contents as an argument.
* A semaphore is its counter, a natural number.  `sem_wait` on a zero counter does
  not return: the calling operation yields `none`.  So does an operation that ends in
  `cleanup_exit`, which terminates the process.
* The mutex is a flag telling whether it is held.  Locking a held mutex does not
  return in a single-threaded run: the calling operation yields `none`.
* POSIX calls on initialised primitives are taken to succeed, with one exception:
  the `sem_post` of the loop of `BlockingQueue_clear` fails when the counter is at
  `SEM_VALUE_MAX`.  (On every state reached through the interface the two counters
  add up to at most `SEM_VALUE_MAX`, see `BlockingQueue_counters_bounded`, so the
  `sem_post` of `BlockingQueue_enq` and `BlockingQueue_deq` never meets that limit.)
  The three initialisations in the constructor may fail, as directed by the
  environment.
-/

namespace BQueue

/-! ## Queue.h / Queue.c -/

/-- A `void*` value; the address `0` is the null pointer. -/
abbrev Ptr := Nat

/-- The null pointer. -/
def NULL : Ptr := 0

/-- The structure `struct Queue` of `Queue.h`; `array` is the block of `void*` slots. -/
structure Queue where
  front : Int
  rear : Int
  current_size : Int
  max_size : Int
  array : List Ptr
deriving DecidableEq, Repr

/-- The read `((void** )array)[i]`.  An index outside the block is undefined behaviour
in C; it is given the value `NULL` here. -/
def readSlot (array : List Ptr) (i : Int) : Ptr :=
  if 0 ≤ i then array.getD i.toNat NULL else NULL

/-- The write `((void** )array)[i] = v`.  An index outside the block is undefined
behaviour in C; it leaves the block as it is here. -/
def writeSlot (array : List Ptr) (i : Int) (v : Ptr) : List Ptr :=
  if 0 ≤ i then array.set i.toNat v else array

/-- The constructor `new_Queue`, allocation taken to succeed.  `heap k` is the
indeterminate content of slot `k` of the freshly allocated block. -/
def new_Queue (heap : Nat → Ptr) (max_size : Int) : Option Queue :=
  if max_size ≤ 0 then none
  else
    some { max_size := max_size
           front := 0
           current_size := 0
           rear := max_size - 1
           array := (List.range max_size.toNat).map heap }

/-- The function `Queue_isEmpty`. -/
def Queue_isEmpty (this : Queue) : Bool :=
  decide (this.current_size = 0)

/-- The function `Queue_size`. -/
def Queue_size (this : Queue) : Int :=
  this.current_size

/-- The function `Queue_enq`: the returned flag and the queue after the call. -/
def Queue_enq (this : Queue) (element : Ptr) : Bool × Queue :=
  if this.current_size = this.max_size ∨ element = NULL then (false, this)
  else
    let rear := Int.tmod (this.rear + 1) this.max_size
    (true, { this with
               rear := rear
               array := writeSlot this.array rear element
               current_size := this.current_size + 1 })

/-- The function `Queue_deq`: the returned pointer and the queue after the call. -/
def Queue_deq (this : Queue) : Ptr × Queue :=
  if Queue_isEmpty this then (NULL, this)
  else
    let item := readSlot this.array this.front
    (item, { this with
               front := Int.tmod (this.front + 1) this.max_size
               current_size := this.current_size - 1 })

/-- The function `Queue_clear`. -/
def Queue_clear (this : Queue) : Queue :=
  { this with current_size := 0, front := 0, rear := this.max_size - 1 }

/-! ## Calls and runs of the plain queue -/

/-- A call to one of the five operations of `Queue.h` on an existing queue. -/
inductive Op where
  | enq (element : Ptr)
  | deq
  | size
  | isEmpty
  | clear
deriving DecidableEq, Repr

/-- What a call returns. -/
inductive Ret where
  | bool (b : Bool)
  | ptr (p : Ptr)
  | int (i : Int)
  | void
deriving DecidableEq, Repr

/-- One call on the ring buffer: what it returns and the queue afterwards. -/
def Queue_call (this : Queue) : Op → Ret × Queue
  | Op.enq e => ((Ret.bool (Queue_enq this e).1), (Queue_enq this e).2)
  | Op.deq => ((Ret.ptr (Queue_deq this).1), (Queue_deq this).2)
  | Op.size => (Ret.int (Queue_size this), this)
  | Op.isEmpty => (Ret.bool (Queue_isEmpty this), this)
  | Op.clear => (Ret.void, Queue_clear this)

/-- A sequence of calls on the ring buffer: the results in order and the final queue. -/
def Queue_run (this : Queue) : List Op → List Ret × Queue
  | [] => ([], this)
  | op :: ops =>
    ((Queue_call this op).1 :: (Queue_run (Queue_call this op).2 ops).1,
      (Queue_run (Queue_call this op).2 ops).2)

/-- Enqueue the elements of a list one after the other: the flags returned and the
final queue. -/
def Queue_enqAll (this : Queue) : List Ptr → List Bool × Queue
  | [] => ([], this)
  | e :: es =>
    ((Queue_enq this e).1 :: (Queue_enqAll (Queue_enq this e).2 es).1,
      (Queue_enqAll (Queue_enq this e).2 es).2)

/-- Dequeue `k` times: the pointers returned and the final queue. -/
def Queue_deqN (this : Queue) : Nat → List Ptr × Queue
  | 0 => ([], this)
  | k + 1 =>
    ((Queue_deq this).1 :: (Queue_deqN (Queue_deq this).2 k).1,
      (Queue_deqN (Queue_deq this).2 k).2)

/-! ## The bounded list queue (reference model) -/

/-- The reference model of the ring buffer, following the wording of the specification:
a list of at most `cap` non-NULL elements, oldest first. -/
structure ListQueue where
  cap : Int
  items : List Ptr
deriving DecidableEq, Repr

/-- The reference model of a freshly created queue of capacity `n`. -/
def ListQueue.new (n : Int) : ListQueue :=
  { cap := n, items := [] }

/-- Reference enqueue: append unless the list is full or the element is NULL. -/
def ListQueue.enq (m : ListQueue) (e : Ptr) : Bool × ListQueue :=
  if (m.items.length : Int) = m.cap ∨ e = NULL then (false, m)
  else (true, { m with items := m.items ++ [e] })

/-- Reference dequeue: remove and return the head, or return NULL on the empty list. -/
def ListQueue.deq (m : ListQueue) : Ptr × ListQueue :=
  match m.items with
  | [] => (NULL, m)
  | x :: xs => (x, { m with items := xs })

/-- One call on the reference model. -/
def ListQueue.call (m : ListQueue) : Op → Ret × ListQueue
  | Op.enq e => (Ret.bool (m.enq e).1, (m.enq e).2)
  | Op.deq => (Ret.ptr m.deq.1, m.deq.2)
  | Op.size => (Ret.int m.items.length, m)
  | Op.isEmpty => (Ret.bool m.items.isEmpty, m)
  | Op.clear => (Ret.void, { m with items := [] })

/-- A sequence of calls on the reference model. -/
def ListQueue.run (m : ListQueue) : List Op → List Ret × ListQueue
  | [] => ([], m)
  | op :: ops =>
    ((m.call op).1 :: (ListQueue.run (m.call op).2 ops).1,
      (ListQueue.run (m.call op).2 ops).2)

/-! ## BlockingQueue.h / BlockingQueue.c -/

/-- The structure `struct BlockingQueue` of `BlockingQueue.h`.  `mutex` tells whether
the mutex is held; each semaphore is its counter. -/
structure BlockingQueue where
  queue : Queue
  mutex : Bool
  full_slots : Nat
  empty_slots : Nat
  max_size : Int
  initialized : Int
deriving DecidableEq, Repr

/-- The call `sem_wait`: `none` when the counter is zero (the caller is suspended),
else the counter decremented. -/
def sem_wait (v : Nat) : Option Nat :=
  if v = 0 then none else some (v - 1)

/-- The call `sem_post`. -/
def sem_post (v : Nat) : Nat :=
  v + 1

/-- The constant `INT_MAX` of `<limits.h>` for a 32-bit `int`. -/
def INT_MAX : Int := 2147483647

/-- The constant `SEM_VALUE_MAX` of `<limits.h>`, the largest value a semaphore can
hold; with the C library of Linux it equals `INT_MAX`. -/
def SEM_VALUE_MAX : Nat := 2147483647

/-- The call `sem_post` together with its failure: a counter that is already at
`SEM_VALUE_MAX` cannot be raised, the call returns -1 (`EOVERFLOW`), which is `none`
here. -/
def sem_post_checked (v : Nat) : Option Nat :=
  if v < SEM_VALUE_MAX then some (sem_post v) else none

/-- The call `pthread_mutex_lock`: `none` when the mutex is already held, else the
mutex held. -/
def pthread_mutex_lock (held : Bool) : Option Bool :=
  if held then none else some true

/-- The call `pthread_mutex_unlock`. -/
def pthread_mutex_unlock (_held : Bool) : Bool :=
  false

/-- What the process owns that `BlockingQueue_destroy` may release. -/
inductive Resource where
  | queue
  | mutex
  | full_slots
  | empty_slots
  | self
deriving DecidableEq, Repr

/-- The function `BlockingQueue_destroy`: the resources it releases, in order. -/
def BlockingQueue_destroy (this : BlockingQueue) : List Resource :=
  (if this.initialized ≥ 1 then [Resource.queue] else []) ++
  (if this.initialized ≥ 2 then [Resource.mutex] else []) ++
  (if this.initialized ≥ 3 then [Resource.full_slots] else []) ++
  (if this.initialized ≥ 4 then [Resource.empty_slots] else []) ++
  [Resource.self]

/-- What the platform does during construction: whether each fallible step succeeds,
and the indeterminate contents of the slot block handed out by `malloc`. -/
structure Env where
  malloc_ok : Bool
  mutex_init_ok : Bool
  full_init_ok : Bool
  empty_init_ok : Bool
  heap : Nat → Ptr

/-- The three ways `new_BlockingQueue` ends: it returns NULL, it returns a queue, or
`cleanup_exit` releases the listed resources and terminates the process. -/
inductive Created where
  | null
  | ok (q : BlockingQueue)
  | exited (released : List Resource)
deriving DecidableEq, Repr

/-- The function `cleanup_exit`: destroy the queue, then terminate. -/
def cleanup_exit (this : BlockingQueue) : Created :=
  Created.exited (BlockingQueue_destroy this)

/-- The function `new_BlockingQueue`.  Fields not yet initialised when `cleanup_exit`
runs are given placeholder values; `BlockingQueue_destroy` does not read them. -/
def new_BlockingQueue (env : Env) (max_size : Int) : Created :=
  if !env.malloc_ok then Created.null
  else
    -- initialized = ZERO; initialized += ONE; queue = new_Queue(max_size)
    match new_Queue env.heap max_size with
    | none => Created.null
    | some queue =>
      let this : BlockingQueue :=
        { queue := queue, mutex := false, full_slots := 0, empty_slots := 0,
          max_size := max_size, initialized := 0 + 1 }
      let this := { this with initialized := this.initialized + 1 }
      if !env.mutex_init_ok then cleanup_exit this
      else
        let this := { this with initialized := this.initialized + 1 }
        if !env.full_init_ok then cleanup_exit this
        else
          let this := { this with full_slots := 0 }
          let this := { this with initialized := this.initialized + 1 }
          if !env.empty_init_ok then cleanup_exit this
          else
            Created.ok { this with empty_slots := max_size.toNat }

/-- An environment in which every step of the construction succeeds and the fresh
slot block holds `heap`. -/
def Env.allOk (heap : Nat → Ptr) : Env :=
  { malloc_ok := true, mutex_init_ok := true, full_init_ok := true,
    empty_init_ok := true, heap := heap }

/-- The function `BlockingQueue_enq`: `none` when the call does not return. -/
def BlockingQueue_enq (this : BlockingQueue) (element : Ptr) :
    Option (Bool × BlockingQueue) :=
  match sem_wait this.empty_slots with
  | none => none
  | some e =>
    let this := { this with empty_slots := e }
    match pthread_mutex_lock this.mutex with
    | none => none
    | some held =>
      let this := { this with mutex := held }
      let success := (Queue_enq this.queue element).1
      let this := { this with queue := (Queue_enq this.queue element).2 }
      let this := { this with mutex := pthread_mutex_unlock this.mutex }
      let this := { this with full_slots := sem_post this.full_slots }
      some (success, this)

/-- The function `BlockingQueue_deq`: `none` when the call does not return. -/
def BlockingQueue_deq (this : BlockingQueue) : Option (Ptr × BlockingQueue) :=
  match sem_wait this.full_slots with
  | none => none
  | some f =>
    let this := { this with full_slots := f }
    match pthread_mutex_lock this.mutex with
    | none => none
    | some held =>
      let this := { this with mutex := held }
      let element := (Queue_deq this.queue).1
      let this := { this with queue := (Queue_deq this.queue).2 }
      let this := { this with mutex := pthread_mutex_unlock this.mutex }
      let this := { this with empty_slots := sem_post this.empty_slots }
      some (element, this)

/-- The function `BlockingQueue_size`. -/
def BlockingQueue_size (this : BlockingQueue) : Option (Int × BlockingQueue) :=
  match pthread_mutex_lock this.mutex with
  | none => none
  | some held =>
    let this := { this with mutex := held }
    let size := Queue_size this.queue
    let this := { this with mutex := pthread_mutex_unlock this.mutex }
    some (size, this)

/-- The function `BlockingQueue_isEmpty`. -/
def BlockingQueue_isEmpty (this : BlockingQueue) : Option (Bool × BlockingQueue) :=
  match pthread_mutex_lock this.mutex with
  | none => none
  | some held =>
    let this := { this with mutex := held }
    let empty := Queue_isEmpty this.queue
    let this := { this with mutex := pthread_mutex_unlock this.mutex }
    some (empty, this)

/-- The loop `while (sem_trywait(&full_slots) == 0);` on a counter: each successful
`sem_trywait` takes one unit, and the loop ends at the first one that finds zero. -/
def drain_full_slots : Nat → Nat
  | 0 => 0
  | v + 1 => drain_full_slots v

/-- The body `if (sem_post(&empty_slots)) { cleanup_exit(...); }` of the `for` loop of
`BlockingQueue_clear`, run `trips` times on a counter: `none` as soon as one
`sem_post` fails, where the code goes to `cleanup_exit` and the process ends. -/
def post_empty_slots : Nat → Nat → Option Nat
  | 0, v => some v
  | trips + 1, v =>
    match sem_post_checked v with
    | none => none
    | some v1 => post_empty_slots trips v1

/-- The function `BlockingQueue_clear`: `none` when the call does not return.  The
`for` loop starts at `i = value_empty_slots`, runs while `i < max_size + 1` and
increments `i`, so its body runs `(max_size + 1 - value_empty_slots)` times, or not at
all when that is negative.  For `max_size = INT_MAX` the last of these `sem_post` would
take the counter above `SEM_VALUE_MAX`: it fails and `cleanup_exit` ends the
process. -/
def BlockingQueue_clear (this : BlockingQueue) : Option BlockingQueue :=
  match pthread_mutex_lock this.mutex with
  | none => none
  | some held =>
    let this := { this with mutex := held }
    let this := { this with queue := Queue_clear this.queue }
    let value_empty_slots : Int := this.empty_slots
    let this := { this with full_slots := drain_full_slots this.full_slots }
    let trips := ((this.max_size + 1) - value_empty_slots).toNat
    match post_empty_slots trips this.empty_slots with
    | none => none
    | some posted =>
      let this := { this with empty_slots := posted }
      let this := { this with mutex := pthread_mutex_unlock this.mutex }
      some this

/-- One call on the blocking queue made by the only thread there is: `none` when the
call does not return. -/
def BlockingQueue_call (this : BlockingQueue) : Op → Option (Ret × BlockingQueue)
  | Op.enq e => (BlockingQueue_enq this e).map (fun r => (Ret.bool r.1, r.2))
  | Op.deq => (BlockingQueue_deq this).map (fun r => (Ret.ptr r.1, r.2))
  | Op.size => (BlockingQueue_size this).map (fun r => (Ret.int r.1, r.2))
  | Op.isEmpty => (BlockingQueue_isEmpty this).map (fun r => (Ret.bool r.1, r.2))
  | Op.clear => (BlockingQueue_clear this).map (fun r => (Ret.void, r))

/-- A sequence of calls made by one thread, each returning before the next starts:
`none` as soon as one of them does not return. -/
def BlockingQueue_run (this : BlockingQueue) : List Op → Option (List Ret × BlockingQueue)
  | [] => some ([], this)
  | op :: ops =>
    match BlockingQueue_call this op with
    | none => none
    | some (r, this1) =>
      match BlockingQueue_run this1 ops with
      | none => none
      | some (rs, this2) => some (r :: rs, this2)

/-- The heap used in the concrete runs: every fresh slot reads `0`. -/
def zeroHeap : Nat → Ptr := fun _ => 0

/-- The blocking queue returned by `new_BlockingQueue(2)` when every step succeeds
and the fresh slots read `0`. -/
def fresh2 : BlockingQueue :=
  { queue := { front := 0, rear := 1, current_size := 0, max_size := 2, array := [0, 0] }
    mutex := false
    full_slots := 0
    empty_slots := 2
    max_size := 2
    initialized := 4 }

/-- The invariant the specification states for the two counters:
`fillCount + emptyCount == capacity` and `fillCount == buffer.count`. -/
def BlockingQueue.countersAgree (q : BlockingQueue) : Prop :=
  ((q.full_slots : Int) + (q.empty_slots : Int) = q.max_size) ∧
    ((q.full_slots : Int) = q.queue.current_size)

instance (q : BlockingQueue) : Decidable q.countersAgree := by
  unfold BlockingQueue.countersAgree
  infer_instance

/-- A queue of capacity 3 holding one element in the last slot: the next enqueue
wraps `rear` round to slot 0. -/
def oneAtEnd3 : Queue :=
  { front := 2, rear := 2, current_size := 1, max_size := 3, array := [4, 5, 6] }

/-- An empty queue of capacity 3 whose slots still hold stale values. -/
def drained3 : Queue :=
  { front := 1, rear := 0, current_size := 0, max_size := 3, array := [4, 5, 6] }

/-- A full queue of capacity 3 with `front` at the last slot: the next dequeue wraps
`front` round to slot 0. -/
def fullFromEnd3 : Queue :=
  { front := 2, rear := 1, current_size := 3, max_size := 3, array := [4, 5, 6] }

/-- The blocking queue of capacity 2 after one enqueue of the element 5. -/
def holding2 : BlockingQueue :=
  { queue := { front := 0, rear := 0, current_size := 1, max_size := 2, array := [5, 0] }
    mutex := false
    full_slots := 1
    empty_slots := 1
    max_size := 2
    initialized := 4 }

/-- The blocking queue of capacity 2 after one enqueue of the element 5 and one
dequeue: empty again, `front` moved on, a stale value left in slot 0. -/
def cycled2 : BlockingQueue :=
  { queue := { front := 1, rear := 0, current_size := 0, max_size := 2, array := [5, 0] }
    mutex := false
    full_slots := 0
    empty_slots := 2
    max_size := 2
    initialized := 4 }

/-- The three states of the state machine of the specification. -/
inductive QState where
  | Empty
  | Partial
  | Full
deriving DecidableEq, Repr

/-- The state of a queue, following the wording of the specification: `Empty` when
`count = 0`, `Full` when `count = capacity`, `Partial` in between. -/
def Queue.state (q : Queue) : QState :=
  if q.current_size = 0 then QState.Empty
  else if q.current_size = q.max_size then QState.Full
  else QState.Partial

/-- The moves the specification lists for a successful enqueue: `Empty → Partial` or
`Partial → Full`. -/
def QState.enqListed (s s' : QState) : Prop :=
  (s = QState.Empty ∧ s' = QState.Partial) ∨ (s = QState.Partial ∧ s' = QState.Full)

instance (s s' : QState) : Decidable (QState.enqListed s s') := by
  unfold QState.enqListed
  infer_instance

/-- The moves the specification lists for a successful dequeue: `Full → Partial` or
`Partial → Empty`. -/
def QState.deqListed (s s' : QState) : Prop :=
  (s = QState.Full ∧ s' = QState.Partial) ∨ (s = QState.Partial ∧ s' = QState.Empty)

instance (s s' : QState) : Decidable (QState.deqListed s s') := by
  unfold QState.deqListed
  infer_instance

/-- A queue of capacity 3 holding two elements. -/
def twoOfThree : Queue :=
  { front := 0, rear := 1, current_size := 2, max_size := 3, array := [4, 5, 6] }

/-- An environment in which the initialisation of the mutex fails. -/
def mutexInitFails : Env :=
  { malloc_ok := true, mutex_init_ok := false, full_init_ok := true,
    empty_init_ok := true, heap := zeroHeap }

/-- An environment in which the initialisation of `full_slots` fails. -/
def fullInitFails : Env :=
  { malloc_ok := true, mutex_init_ok := true, full_init_ok := false,
    empty_init_ok := true, heap := zeroHeap }

/-- An environment in which the initialisation of `empty_slots` fails. -/
def emptyInitFails : Env :=
  { malloc_ok := true, mutex_init_ok := true, full_init_ok := true,
    empty_init_ok := false, heap := zeroHeap }

/-! ## Abstraction of the ring buffer -/

/-- Well-formedness of a ring buffer: positive capacity, a slot block of that
length, `front` and `rear` inside the block, the count within the capacity, and `rear`
one slot behind `front + current_size`, circularly. -/
def Queue.WF (q : Queue) : Prop :=
  0 < q.max_size ∧ (q.array.length : Int) = q.max_size ∧
  0 ≤ q.front ∧ q.front < q.max_size ∧
  0 ≤ q.rear ∧ q.rear < q.max_size ∧
  0 ≤ q.current_size ∧ q.current_size ≤ q.max_size ∧
  Int.tmod (q.rear + 1) q.max_size = Int.tmod (q.front + q.current_size) q.max_size

instance (q : Queue) : Decidable q.WF := by
  unfold Queue.WF
  infer_instance

/-- The elements a ring buffer holds, oldest first: the `current_size` slots read
from `front` onwards, circularly. -/
def Queue.contents (q : Queue) : List Ptr :=
  (List.range q.current_size.toNat).map
    (fun (i : Nat) => readSlot q.array (Int.tmod (q.front + (i : Int)) q.max_size))

/-- The ring buffer `q` represents the reference queue `m`. -/
def Sim (q : Queue) (m : ListQueue) : Prop :=
  q.WF ∧ q.contents = m.items ∧ m.cap = q.max_size ∧ ∀ x ∈ m.items, x ≠ NULL

/-! ## Wrap-around arithmetic and slot access -/

theorem tmod_wrap (x n : Int) (h0 : 0 ≤ x) (hn : 0 < n) (h1 : x < 2 * n) :
    Int.tmod x n = if x < n then x else x - n := by
  rw [Int.tmod_eq_emod h0 (le_of_lt hn)]
  split
  · exact Int.emod_eq_of_lt h0 ‹_›
  · calc x % n = ((x - n) + n) % n := by rw [Int.sub_add_cancel]
      _ = (x - n) % n := Int.add_emod_self
      _ = x - n := Int.emod_eq_of_lt (by omega) (by omega)

theorem readSlot_writeSlot_same (arr : List Ptr) (i : Int) (v : Ptr)
    (h0 : 0 ≤ i) (h1 : i < arr.length) : readSlot (writeSlot arr i v) i = v := by
  have hlt : i.toNat < arr.length := by omega
  simp [readSlot, writeSlot, h0, List.getD_eq_getElem?_getD, List.getElem?_set, hlt]

theorem readSlot_writeSlot_ne (arr : List Ptr) (i j : Int) (v : Ptr)
    (hi : 0 ≤ i) (hj : 0 ≤ j) (hne : i ≠ j) :
    readSlot (writeSlot arr i v) j = readSlot arr j := by
  have hn : i.toNat ≠ j.toNat := by omega
  simp [readSlot, writeSlot, hi, hj, List.getD_eq_getElem?_getD, List.getElem?_set, hn]

theorem length_writeSlot (arr : List Ptr) (i : Int) (v : Ptr) :
    (writeSlot arr i v).length = arr.length := by
  unfold writeSlot
  split <;> simp

theorem length_contents (q : Queue) : q.contents.length = q.current_size.toNat := by
  unfold Queue.contents
  rw [List.length_map, List.length_range]

/-! ## The ring buffer operations on well-formed queues -/

theorem new_Queue_spec (heap : Nat → Ptr) (n : Int) (hn : 0 < n) :
    ∃ q, new_Queue heap n = some q ∧ q.WF ∧ q.contents = [] ∧ q.max_size = n ∧
      q.current_size = 0 := by
  refine ⟨{ max_size := n, front := 0, current_size := 0, rear := n - 1,
            array := (List.range n.toNat).map heap },
    by simp only [new_Queue, not_le.mpr hn, if_false], ?_, ?_, rfl, rfl⟩
  · have h1 : Int.tmod (n - 1 + 1) n = 0 := by
      rw [tmod_wrap _ n (by omega) hn (by omega)]
      split <;> omega
    have h2 : Int.tmod (0 + 0) n = 0 := by
      rw [tmod_wrap _ n (by omega) hn (by omega)]
      split <;> omega
    refine ⟨hn, ?_, le_refl _, hn, by show 0 ≤ n - 1; omega, by show n - 1 < n; omega,
      le_refl _, le_of_lt hn, ?_⟩
    · show (((List.range n.toNat).map heap).length : Int) = n
      rw [List.length_map, List.length_range]
      omega
    · show Int.tmod (n - 1 + 1) n = Int.tmod (0 + 0) n
      rw [h1, h2]
  · rfl

theorem Queue_enq_ok (q : Queue) (e : Ptr) (hwf : q.WF)
    (hroom : q.current_size < q.max_size) (he : e ≠ NULL) :
    (Queue_enq q e).1 = true ∧ (Queue_enq q e).2.WF ∧
      (Queue_enq q e).2.contents = q.contents ++ [e] ∧
      (Queue_enq q e).2.max_size = q.max_size ∧
      (Queue_enq q e).2.current_size = q.current_size + 1 := by
  obtain ⟨hn, hlen, hf0, hf1, hr0, hr1, hs0, hs1, hshape⟩ := hwf
  have hcond : ¬ (q.current_size = q.max_size ∨ e = NULL) := by
    rintro (h | h)
    · omega
    · exact he h
  have hr : Int.tmod (q.rear + 1) q.max_size =
      if q.front + q.current_size < q.max_size then q.front + q.current_size
      else q.front + q.current_size - q.max_size := by
    rw [hshape, tmod_wrap _ _ (by omega) hn (by omega)]
  have hr_lo : 0 ≤ Int.tmod (q.rear + 1) q.max_size := by
    rw [hr]; split <;> omega
  have hr_hi : Int.tmod (q.rear + 1) q.max_size < q.max_size := by
    rw [hr]; split <;> omega
  simp only [Queue_enq, hcond, if_false]
  obtain ⟨r, hrdef⟩ : ∃ r, r = Int.tmod (q.rear + 1) q.max_size := ⟨_, rfl⟩
  rw [← hrdef] at hr hr_lo hr_hi hshape ⊢
  refine ⟨trivial, ?_, ?_, trivial, trivial⟩
  · refine ⟨hn, ?_, hf0, hf1, hr_lo, hr_hi, by show 0 ≤ q.current_size + 1; omega,
      by show q.current_size + 1 ≤ q.max_size; omega, ?_⟩
    · show ((writeSlot q.array _ e).length : Int) = q.max_size
      rw [length_writeSlot]; exact hlen
    · show Int.tmod (r + 1) q.max_size =
        Int.tmod (q.front + (q.current_size + 1)) q.max_size
      rw [tmod_wrap _ _ (by omega) hn (by omega), tmod_wrap _ _ (by omega) hn (by omega), hr]
      split_ifs <;> omega
  · show (List.range (q.current_size + 1).toNat).map
        (fun (i : Nat) => readSlot (writeSlot q.array r e)
          (Int.tmod (q.front + (i : Int)) q.max_size)) = q.contents ++ [e]
    have hk : (q.current_size + 1).toNat = q.current_size.toNat + 1 := by omega
    rw [hk, List.range_succ, List.map_append]
    congr 1
    · unfold Queue.contents
      apply List.map_congr_left
      intro i hi
      rw [List.mem_range] at hi
      have hidx : Int.tmod (q.front + (i : Int)) q.max_size =
          if q.front + (i : Int) < q.max_size then q.front + (i : Int)
          else q.front + (i : Int) - q.max_size := by
        rw [tmod_wrap _ _ (by omega) hn (by omega)]
      apply readSlot_writeSlot_ne _ _ _ _ hr_lo
      · rw [hidx]; split <;> omega
      · rw [hr, hidx]; split_ifs <;> omega
    · have hcast : ((q.current_size.toNat : Nat) : Int) = q.current_size := by omega
      simp only [List.map_cons, List.map_nil]
      rw [hcast, ← hshape]
      rw [readSlot_writeSlot_same _ _ _ hr_lo (by omega)]

theorem Queue_enq_fail (q : Queue) (e : Ptr)
    (h : q.current_size = q.max_size ∨ e = NULL) : Queue_enq q e = (false, q) := by
  simp only [Queue_enq, h, if_true]

theorem Queue_deq_empty (q : Queue) (h : q.current_size = 0) : Queue_deq q = (NULL, q) := by
  simp [Queue_deq, Queue_isEmpty, h]

theorem Queue_deq_ok (q : Queue) (hwf : q.WF) (hpos : 0 < q.current_size) :
    (Queue_deq q).2.WF ∧ q.contents = (Queue_deq q).1 :: (Queue_deq q).2.contents ∧
      (Queue_deq q).2.max_size = q.max_size ∧
      (Queue_deq q).2.current_size = q.current_size - 1 := by
  obtain ⟨hn, hlen, hf0, hf1, hr0, hr1, hs0, hs1, hshape⟩ := hwf
  have hne : ¬ (q.current_size = 0) := by omega
  have hf : Int.tmod (q.front + 1) q.max_size =
      if q.front + 1 < q.max_size then q.front + 1 else q.front + 1 - q.max_size := by
    rw [tmod_wrap _ _ (by omega) hn (by omega)]
  have hf_lo : 0 ≤ Int.tmod (q.front + 1) q.max_size := by
    rw [hf]; split <;> omega
  have hf_hi : Int.tmod (q.front + 1) q.max_size < q.max_size := by
    rw [hf]; split <;> omega
  simp only [Queue_deq, Queue_isEmpty, hne, decide_False, Bool.false_eq_true, if_false]
  obtain ⟨f, hfdef⟩ : ∃ f, f = Int.tmod (q.front + 1) q.max_size := ⟨_, rfl⟩
  rw [← hfdef] at hf hf_lo hf_hi ⊢
  refine ⟨?_, ?_, trivial, trivial⟩
  · refine ⟨hn, hlen, hf_lo, hf_hi, hr0, hr1, by show 0 ≤ q.current_size - 1; omega,
      by show q.current_size - 1 ≤ q.max_size; omega, ?_⟩
    show Int.tmod (q.rear + 1) q.max_size =
      Int.tmod (f + (q.current_size - 1)) q.max_size
    rw [hshape, tmod_wrap _ _ (by omega) hn (by omega), tmod_wrap _ _ (by omega) hn (by omega), hf]
    split_ifs <;> omega
  · show q.contents = readSlot q.array q.front ::
      (List.range (q.current_size - 1).toNat).map
        (fun (i : Nat) => readSlot q.array
          (Int.tmod (f + (i : Int)) q.max_size))
    unfold Queue.contents
    have hk : q.current_size.toNat = (q.current_size - 1).toNat + 1 := by omega
    rw [hk, List.range_succ_eq_map, List.map_cons, List.map_map]
    congr 1
    · have h0 : Int.tmod (q.front + ((0 : Nat) : Int)) q.max_size = q.front := by
        rw [tmod_wrap _ _ (by omega) hn (by omega)]
        split <;> omega
      rw [h0]
    · apply List.map_congr_left
      intro i hi
      rw [List.mem_range] at hi
      show readSlot q.array (Int.tmod (q.front + ((i + 1 : Nat) : Int)) q.max_size) = _
      congr 1
      rw [tmod_wrap _ _ (by omega) hn (by omega), tmod_wrap _ _ (by omega) hn (by omega), hf]
      split_ifs <;> omega

theorem Queue_clear_spec (q : Queue) (hwf : q.WF) :
    (Queue_clear q).WF ∧ (Queue_clear q).contents = [] ∧
      (Queue_clear q).max_size = q.max_size ∧ (Queue_clear q).current_size = 0 := by
  obtain ⟨hn, hlen, hf0, hf1, hr0, hr1, hs0, hs1, hshape⟩ := hwf
  refine ⟨?_, rfl, rfl, rfl⟩
  have h1 : Int.tmod (q.max_size - 1 + 1) q.max_size = 0 := by
    rw [tmod_wrap _ _ (by omega) hn (by omega)]
    split <;> omega
  have h2 : Int.tmod (0 + 0) q.max_size = 0 := by
    rw [tmod_wrap _ _ (by omega) hn (by omega)]
    split <;> omega
  refine ⟨hn, hlen, le_refl _, hn, by show 0 ≤ q.max_size - 1; omega,
    by show q.max_size - 1 < q.max_size; omega, le_refl _, le_of_lt hn, ?_⟩
  show Int.tmod (q.max_size - 1 + 1) q.max_size = Int.tmod (0 + 0) q.max_size
  rw [h1, h2]

/-! ## The ring buffer simulates the bounded list queue -/

theorem Sim_new (heap : Nat → Ptr) (n : Int) (hn : 0 < n) :
    ∃ q, new_Queue heap n = some q ∧ Sim q (ListQueue.new n) := by
  obtain ⟨q, hq, hwf, hc, hm, _⟩ := new_Queue_spec heap n hn
  exact ⟨q, hq, hwf, hc, hm.symm, by intro x hx; cases hx⟩

theorem Sim_size (q : Queue) (m : ListQueue) (h : Sim q m) :
    (m.items.length : Int) = q.current_size := by
  obtain ⟨hwf, hc, _, _⟩ := h
  have hs0 : 0 ≤ q.current_size := hwf.2.2.2.2.2.2.1
  rw [← hc, length_contents]
  omega

theorem Sim_call (q : Queue) (m : ListQueue) (op : Op) (h : Sim q m) :
    (Queue_call q op).1 = (m.call op).1 ∧ Sim (Queue_call q op).2 (m.call op).2 := by
  have hlen := Sim_size q m h
  obtain ⟨hwf, hc, hcap, hnn⟩ := h
  have hs1 : q.current_size ≤ q.max_size := hwf.2.2.2.2.2.2.2.1
  have hs0 : 0 ≤ q.current_size := hwf.2.2.2.2.2.2.1
  cases op with
  | enq e =>
    by_cases hcond : q.current_size = q.max_size ∨ e = NULL
    · have hm : (m.items.length : Int) = m.cap ∨ e = NULL := by
        rw [hlen, hcap]; exact hcond
      simp only [Queue_call, ListQueue.call, Queue_enq_fail q e hcond, ListQueue.enq, hm,
        if_true]
      exact ⟨trivial, hwf, hc, hcap, hnn⟩
    · have hm : ¬ ((m.items.length : Int) = m.cap ∨ e = NULL) := by
        rw [hlen, hcap]; exact hcond
      have hroom : q.current_size < q.max_size := by
        have : q.current_size ≠ q.max_size := fun hh => hcond (Or.inl hh)
        omega
      have he : e ≠ NULL := fun hh => hcond (Or.inr hh)
      obtain ⟨h1, h2, h3, h4, _⟩ := Queue_enq_ok q e hwf hroom he
      simp only [Queue_call, ListQueue.call, ListQueue.enq, hm, if_false, h1]
      refine ⟨trivial, h2, ?_, ?_, ?_⟩
      · rw [h3, hc]
      · rw [h4]; exact hcap
      · intro x hx
        rcases List.mem_append.mp hx with hx | hx
        · exact hnn x hx
        · rw [List.mem_singleton] at hx
          rw [hx]; exact he
  | deq =>
    by_cases hz : q.current_size = 0
    · have hnil : m.items = [] := by
        apply List.eq_nil_of_length_eq_zero
        omega
      simp only [Queue_call, ListQueue.call, Queue_deq_empty q hz, ListQueue.deq, hnil]
      refine ⟨trivial, hwf, ?_, hcap, hnn⟩
      · rw [hc, hnil]
    · obtain ⟨h1, h2, h3, _⟩ := Queue_deq_ok q hwf (by omega)
      rw [hc] at h2
      simp only [Queue_call, ListQueue.call, ListQueue.deq, h2]
      refine ⟨trivial, h1, rfl, ?_, ?_⟩
      · rw [h3]; exact hcap
      · intro x hx
        apply hnn x
        rw [h2]
        exact List.mem_cons_of_mem _ hx
  | size =>
    simp only [Queue_call, ListQueue.call, Queue_size, hlen]
    exact ⟨trivial, hwf, hc, hcap, hnn⟩
  | isEmpty =>
    have hb : Queue_isEmpty q = m.items.isEmpty := by
      unfold Queue_isEmpty
      cases hi : m.items with
      | nil =>
        rw [hi] at hlen
        simp only [List.isEmpty_nil, decide_eq_true_eq]
        simpa using hlen.symm
      | cons x xs =>
        rw [hi] at hlen
        simp only [List.isEmpty_cons, decide_eq_false_iff_not]
        simp only [List.length_cons] at hlen
        omega
    simp only [Queue_call, ListQueue.call, hb]
    exact ⟨trivial, hwf, hc, hcap, hnn⟩
  | clear =>
    obtain ⟨h1, h2, h3, _⟩ := Queue_clear_spec q hwf
    simp only [Queue_call, ListQueue.call]
    refine ⟨trivial, h1, h2, ?_, ?_⟩
    · rw [h3]; exact hcap
    · intro x hx; cases hx

theorem Sim_run (ops : List Op) (q : Queue) (m : ListQueue) (h : Sim q m) :
    (Queue_run q ops).1 = (m.run ops).1 ∧ Sim (Queue_run q ops).2 (m.run ops).2 := by
  induction ops generalizing q m with
  | nil => exact ⟨rfl, h⟩
  | cons op ops ih =>
    obtain ⟨h1, h2⟩ := Sim_call q m op h
    obtain ⟨h3, h4⟩ := ih _ _ h2
    simp only [Queue_run, ListQueue.run]
    exact ⟨by rw [h1, h3], h4⟩

theorem Queue_enqAll_spec (l : List Ptr) (q : Queue) (hwf : q.WF)
    (hroom : q.current_size + (l.length : Int) ≤ q.max_size) (hl : ∀ a ∈ l, a ≠ NULL) :
    (Queue_enqAll q l).1 = List.replicate l.length true ∧ (Queue_enqAll q l).2.WF ∧
      (Queue_enqAll q l).2.contents = q.contents ++ l := by
  induction l generalizing q with
  | nil => exact ⟨rfl, hwf, by simp [Queue_enqAll]⟩
  | cons e es ih =>
    simp only [List.length_cons, Nat.cast_add, Nat.cast_one] at hroom
    obtain ⟨h1, h2, h3, h4, h5⟩ :=
      Queue_enq_ok q e hwf (by omega) (hl e (List.mem_cons_self _ _))
    obtain ⟨i1, i2, i3⟩ := ih (Queue_enq q e).2 h2 (by rw [h4, h5]; omega)
      (fun a ha => hl a (List.mem_cons_of_mem _ ha))
    simp only [Queue_enqAll, List.length_cons, List.replicate_succ]
    refine ⟨by rw [h1, i1], i2, ?_⟩
    rw [i3, h3, List.append_assoc, List.singleton_append]

theorem Queue_deqN_spec (l : List Ptr) (q : Queue) (hwf : q.WF) (hc : q.contents = l) :
    (Queue_deqN q l.length).1 = l ∧ (Queue_deqN q l.length).2.current_size = 0 := by
  have hs0 : 0 ≤ q.current_size := hwf.2.2.2.2.2.2.1
  have hlen : q.current_size.toNat = l.length := by rw [← hc, length_contents]
  induction l generalizing q with
  | nil =>
    simp only [List.length_nil] at hlen
    exact ⟨rfl, by show q.current_size = 0; omega⟩
  | cons x xs ih =>
    simp only [List.length_cons] at hlen
    obtain ⟨h1, h2, _, h4⟩ := Queue_deq_ok q hwf (by omega)
    rw [hc] at h2
    have hx : (Queue_deq q).1 = x := (List.cons.inj h2).1.symm
    have hxs : (Queue_deq q).2.contents = xs := (List.cons.inj h2).2.symm
    obtain ⟨i1, i2⟩ := ih (Queue_deq q).2 h1 hxs h1.2.2.2.2.2.2.1 (by rw [h4]; omega)
    simp only [Queue_deqN, List.length_cons]
    exact ⟨by rw [hx, i1], i2⟩

/-! ## Theorems on the plain queue -/

/-- C8: the ring buffer refines the bounded list queue.  For every capacity `n > 0`,
every initial slot content and every finite sequence of `Queue_enq` (any element),
`Queue_deq`, `Queue_size`, `Queue_isEmpty` and `Queue_clear` calls, `new_Queue n`
succeeds and the calls return, one by one, what the list model of capacity `n`
returns. -/
theorem Queue_refines_ListQueue (heap : Nat → Ptr) (n : Int) (ops : List Op) (hn : 0 < n) :
    (new_Queue heap n).map (fun q => (Queue_run q ops).1) =
      some ((ListQueue.new n).run ops).1 := by
  obtain ⟨q, hq, hsim⟩ := Sim_new heap n hn
  rw [hq, Option.map_some', (Sim_run ops q _ hsim).1]

/-- Witness of C8: capacity 3, a run that fills the buffer, is refused a fourth
element and a NULL, drains it past the wrap-around of `front` and `rear`, and
clears it. -/
theorem Queue_refines_ListQueue_witness :
    (0 : Int) < 3 ∧
    (new_Queue zeroHeap 3).map (fun q => (Queue_run q
      [Op.enq 11, Op.enq 12, Op.deq, Op.enq 13, Op.enq 14, Op.enq 15, Op.enq NULL,
       Op.size, Op.deq, Op.deq, Op.deq, Op.deq, Op.isEmpty, Op.enq 16, Op.clear,
       Op.size]).1) =
      some ((ListQueue.new 3).run
      [Op.enq 11, Op.enq 12, Op.deq, Op.enq 13, Op.enq 14, Op.enq 15, Op.enq NULL,
       Op.size, Op.deq, Op.deq, Op.deq, Op.deq, Op.isEmpty, Op.enq 16, Op.clear,
       Op.size]).1 :=
  ⟨by decide, Queue_refines_ListQueue zeroHeap 3 _ (by decide)⟩

/-- C9: FIFO order of the plain queue.  For every capacity `n > 0` and every list
`l` of `k ≤ n` non-NULL elements (so in particular for `1 ≤ k ≤ n`), `new_Queue n` succeeds, enqueueing the
elements of `l` in order makes every `Queue_enq` return true, the `k` following calls
to `Queue_deq` return exactly `l` in order, and `Queue_isEmpty` is then true. -/
theorem Queue_fifo (heap : Nat → Ptr) (n : Int) (l : List Ptr) (hn : 0 < n)
    (hk : (l.length : Int) ≤ n) (hl : ∀ a ∈ l, a ≠ NULL) :
    ∃ q0, new_Queue heap n = some q0 ∧
      (Queue_enqAll q0 l).1 = List.replicate l.length true ∧
      (Queue_deqN (Queue_enqAll q0 l).2 l.length).1 = l ∧
      Queue_isEmpty (Queue_deqN (Queue_enqAll q0 l).2 l.length).2 = true := by
  obtain ⟨q0, hq, hwf, hc, hm, hz⟩ := new_Queue_spec heap n hn
  obtain ⟨h1, h2, h3⟩ := Queue_enqAll_spec l q0 hwf (by rw [hz, hm]; omega) hl
  rw [hc, List.nil_append] at h3
  obtain ⟨h4, h5⟩ := Queue_deqN_spec l _ h2 h3
  exact ⟨q0, hq, h1, h4, by simp [Queue_isEmpty, h5]⟩

/-- Witness of C9: three elements through a queue of capacity 3. -/
theorem Queue_fifo_witness :
    (0 : Int) < 3 ∧ (([21, 22, 23] : List Ptr).length : Int) ≤ 3 ∧
    (∀ a ∈ ([21, 22, 23] : List Ptr), a ≠ NULL) ∧
    ∃ q0, new_Queue zeroHeap 3 = some q0 ∧
      (Queue_enqAll q0 [21, 22, 23]).1 = List.replicate [21, 22, 23].length true ∧
      (Queue_deqN (Queue_enqAll q0 [21, 22, 23]).2 [21, 22, 23].length).1 = [21, 22, 23] ∧
      Queue_isEmpty (Queue_deqN (Queue_enqAll q0 [21, 22, 23]).2 [21, 22, 23].length).2 =
        true :=
  ⟨by decide, by decide, by decide,
    Queue_fifo zeroHeap 3 [21, 22, 23] (by decide) (by decide) (by decide)⟩

/-- C10: `Queue_enq` returns false exactly when the element is NULL or the queue is
full (`current_size = max_size`), and whenever it returns false the queue (front,
rear, current_size, max_size and every slot) is the one it was given. -/
theorem Queue_enq_false_iff (q : Queue) (e : Ptr) :
    ((Queue_enq q e).1 = false ↔ (e = NULL ∨ q.current_size = q.max_size)) ∧
      ((Queue_enq q e).1 = false → (Queue_enq q e).2 = q) := by
  by_cases hcond : q.current_size = q.max_size ∨ e = NULL
  · rw [Queue_enq_fail q e hcond]
    exact ⟨⟨fun _ => hcond.symm, fun _ => rfl⟩, fun _ => rfl⟩
  · unfold Queue_enq
    rw [if_neg hcond]
    exact ⟨⟨fun h => Bool.noConfusion h, fun h => absurd h.symm hcond⟩,
      fun h => Bool.noConfusion h⟩

/-! ## Theorems on the blocking queue -/

theorem drain_full_slots_eq (v : Nat) : drain_full_slots v = 0 := by
  induction v with
  | zero => rfl
  | succ v ih => exact ih

/-- The posting loop either adds its `trips` units, when the counter stays within
`SEM_VALUE_MAX`, or fails. -/
theorem post_empty_slots_eq (trips v : Nat) :
    post_empty_slots trips v =
      if trips = 0 ∨ v + trips ≤ SEM_VALUE_MAX then some (v + trips) else none := by
  induction trips generalizing v with
  | zero => simp [post_empty_slots]
  | succ k ih =>
    unfold post_empty_slots sem_post_checked
    by_cases hv : v < SEM_VALUE_MAX
    · rw [if_pos hv]
      show post_empty_slots k (sem_post v) = _
      rw [ih]
      unfold sem_post
      by_cases hc : v + (k + 1) ≤ SEM_VALUE_MAX
      · rw [if_pos (Or.inr (by omega)), if_pos (Or.inr hc)]
        congr 1
        omega
      · rw [if_neg (by omega), if_neg (by omega)]
    · rw [if_neg hv]
      show none = _
      rw [if_neg (by omega)]

/-- What `BlockingQueue_clear` does when it returns: the mutex was free, the buffer is
cleared, `full_slots` is drained to zero and `empty_slots` has received
`max_size + 1 - empty_slots` units (none when that is negative). -/
theorem BlockingQueue_clear_some (q q' : BlockingQueue)
    (h : BlockingQueue_clear q = some q') :
    q.mutex = false ∧
    q' = { q with
             queue := Queue_clear q.queue
             full_slots := 0
             empty_slots := q.empty_slots + ((q.max_size + 1) - (q.empty_slots : Int)).toNat
             mutex := false } ∧
    (((q.max_size + 1) - (q.empty_slots : Int)).toNat = 0 ∨
      q.empty_slots + ((q.max_size + 1) - (q.empty_slots : Int)).toNat ≤ SEM_VALUE_MAX) := by
  cases hm : q.mutex with
  | true => simp [BlockingQueue_clear, pthread_mutex_lock, hm] at h
  | false =>
    simp only [BlockingQueue_clear, pthread_mutex_lock, hm, pthread_mutex_unlock,
      drain_full_slots_eq, post_empty_slots_eq, Bool.false_eq_true, if_false] at h
    split_ifs at h with hok
    simp only [Option.some.injEq] at h
    exact ⟨rfl, by rw [← h], hok⟩

/-- What `BlockingQueue_clear` does to a queue whose mutex is free and whose capacity
is below `INT_MAX`: it returns, the buffer is cleared, `full_slots` is drained to zero
and `empty_slots` receives `max_size + 1 - empty_slots` units (none when that is
negative). -/
theorem BlockingQueue_clear_eq (q : BlockingQueue) (hm : q.mutex = false)
    (hb : q.max_size < INT_MAX) :
    BlockingQueue_clear q =
      some { q with
               queue := Queue_clear q.queue
               full_slots := 0
               empty_slots := q.empty_slots + ((q.max_size + 1) - (q.empty_slots : Int)).toNat
               mutex := false } := by
  have hok : ((q.max_size + 1) - (q.empty_slots : Int)).toNat = 0 ∨
      q.empty_slots + ((q.max_size + 1) - (q.empty_slots : Int)).toNat ≤ SEM_VALUE_MAX := by
    unfold INT_MAX at hb
    unfold SEM_VALUE_MAX
    omega
  simp only [BlockingQueue_clear, pthread_mutex_lock, hm, pthread_mutex_unlock,
    drain_full_slots_eq, post_empty_slots_eq, Bool.false_eq_true, if_false, hok, if_true]

/-- On a queue of capacity `INT_MAX` whose mutex is free and whose `empty_slots` is a
value a semaphore can hold, `BlockingQueue_clear` does not return: the last `sem_post`
of its loop fails and `cleanup_exit` ends the process. -/
theorem BlockingQueue_clear_INT_MAX (q : BlockingQueue) (hm : q.mutex = false)
    (hmax : q.max_size = INT_MAX) (hv : q.empty_slots ≤ SEM_VALUE_MAX) :
    BlockingQueue_clear q = none := by
  have hbad : ¬ (((q.max_size + 1) - (q.empty_slots : Int)).toNat = 0 ∨
      q.empty_slots + ((q.max_size + 1) - (q.empty_slots : Int)).toNat ≤ SEM_VALUE_MAX) := by
    rw [hmax]
    unfold INT_MAX
    unfold SEM_VALUE_MAX at hv ⊢
    omega
  simp only [BlockingQueue_clear, pthread_mutex_lock, hm, pthread_mutex_unlock,
    drain_full_slots_eq, post_empty_slots_eq, Bool.false_eq_true, if_false, hbad]

/-- C1: the counters do not keep the invariant `full_slots + empty_slots = max_size`
and `full_slots = current_size`.  On the queue created by `new_BlockingQueue(2)`, one call
`BlockingQueue_enq(q, NULL)` returns false and leaves `full_slots = 1` with an empty
buffer; one call `BlockingQueue_clear(q)` leaves `full_slots + empty_slots = 3`. -/
theorem BlockingQueue_counters_disagree :
    new_BlockingQueue (Env.allOk zeroHeap) 2 = Created.ok fresh2 ∧
    BlockingQueue_run fresh2 [Op.enq NULL] =
      some ([Ret.bool false], { fresh2 with full_slots := 1, empty_slots := 1 }) ∧
    ¬ BlockingQueue.countersAgree { fresh2 with full_slots := 1, empty_slots := 1 } ∧
    BlockingQueue_run fresh2 [Op.clear] =
      some ([Ret.void], { fresh2 with full_slots := 0, empty_slots := 3 }) ∧
    ¬ BlockingQueue.countersAgree { fresh2 with full_slots := 0, empty_slots := 3 } := by
  decide

/-- C2: after `BlockingQueue_clear` the counter `empty_slots` is not `max_size`.  On
the queue created by `new_BlockingQueue(2)`, and on that queue after one successful
enqueue, `BlockingQueue_clear` leaves `full_slots = 0` and `empty_slots = 3`, one unit
above `max_size = 2`. -/
theorem BlockingQueue_clear_posts_one_too_many :
    new_BlockingQueue (Env.allOk zeroHeap) 2 = Created.ok fresh2 ∧
    (BlockingQueue_run fresh2 [Op.clear]).map
        (fun r => (r.2.full_slots, r.2.empty_slots, r.2.max_size)) = some (0, 3, 2) ∧
    (BlockingQueue_run fresh2 [Op.enq 5, Op.clear]).map
        (fun r => (r.2.full_slots, r.2.empty_slots, r.2.max_size)) = some (0, 3, 2) := by
  decide

/-- C3: `BlockingQueue_enq` returns false on a non-NULL element.  On the queue created
by `new_BlockingQueue(2)`, after `BlockingQueue_clear` three enqueues of the non-NULL
elements 5, 6, 7 all proceed without blocking, and the third returns false. -/
theorem BlockingQueue_enq_false_on_non_null :
    new_BlockingQueue (Env.allOk zeroHeap) 2 = Created.ok fresh2 ∧
    (BlockingQueue_run fresh2 [Op.clear, Op.enq 5, Op.enq 6, Op.enq 7]).map (fun r => r.1) =
      some [Ret.void, Ret.bool true, Ret.bool true, Ret.bool false] ∧
    (7 : Ptr) ≠ NULL := by
  decide

/-- C4: `BlockingQueue_enq(q, NULL)` changes the counters.  On the queue created by
`new_BlockingQueue(2)` the call proceeds, returns false and leaves the inner buffer as
it was, but `empty_slots` goes from 2 to 1 and `full_slots` from 0 to 1. -/
theorem BlockingQueue_enq_null_moves_counters :
    new_BlockingQueue (Env.allOk zeroHeap) 2 = Created.ok fresh2 ∧
    BlockingQueue_enq fresh2 NULL =
      some (false, { fresh2 with full_slots := 1, empty_slots := 1 }) ∧
    (fresh2.full_slots, fresh2.empty_slots) = (0, 2) := by
  decide

/-- C5: `BlockingQueue_deq` proceeds without blocking and returns NULL.  On the queue
created by `new_BlockingQueue(2)`, after `BlockingQueue_enq(q, NULL)` has returned
false, `BlockingQueue_deq` does not block and returns NULL, which was never stored. -/
theorem BlockingQueue_deq_returns_null :
    new_BlockingQueue (Env.allOk zeroHeap) 2 = Created.ok fresh2 ∧
    BlockingQueue_run fresh2 [Op.enq NULL, Op.deq] =
      some ([Ret.bool false, Ret.ptr NULL], fresh2) := by
  decide

/-- C6: blocking of `BlockingQueue_enq` and fullness of the buffer come apart, both
ways.  From `new_BlockingQueue(2)`: after two calls `BlockingQueue_enq(q, NULL)` the
buffer is empty and `empty_slots = 0`, so an enqueue blocks; after
`BlockingQueue_clear` and two enqueues the buffer is full (`current_size = max_size`)
and `empty_slots = 1`, so an enqueue proceeds (and returns false). -/
theorem BlockingQueue_enq_blocking_not_fullness :
    new_BlockingQueue (Env.allOk zeroHeap) 2 = Created.ok fresh2 ∧
    (BlockingQueue_run fresh2 [Op.enq NULL, Op.enq NULL]).map
        (fun r => (r.2.empty_slots, r.2.queue.current_size, r.2.queue.max_size,
          (BlockingQueue_enq r.2 7).map (fun s => s.1))) = some (0, 0, 2, none) ∧
    (BlockingQueue_run fresh2 [Op.clear, Op.enq 5, Op.enq 6]).map
        (fun r => (r.2.empty_slots, r.2.queue.current_size, r.2.queue.max_size,
          (BlockingQueue_enq r.2 7).map (fun s => s.1))) = some (1, 2, 2, some false) := by
  decide

/-- C7: `BlockingQueue_deq` does not block on an empty buffer.  From
`new_BlockingQueue(2)`, after one call `BlockingQueue_enq(q, NULL)` the buffer is empty
(`current_size = 0`) and `full_slots = 1`, so `BlockingQueue_deq` proceeds; it returns
NULL. -/
theorem BlockingQueue_deq_proceeds_on_empty :
    new_BlockingQueue (Env.allOk zeroHeap) 2 = Created.ok fresh2 ∧
    (BlockingQueue_run fresh2 [Op.enq NULL]).map
        (fun r => (r.2.full_slots, r.2.queue.current_size,
          (BlockingQueue_deq r.2).map (fun s => s.1))) = some (1, 0, some NULL) := by
  decide


/-! ## Single calls on the plain queue -/

/-- C11: on a queue that is not full, with a non-NULL element `e` and the slot at
`(rear + 1) % max_size` inside the slot block, `Queue_enq` returns true, sets `rear` to
`(rear + 1) % max_size` (the C remainder, which is the mathematical one when `rear` is
not negative and `max_size` is positive), stores `e` in the slot at the new `rear`,
increases `current_size` by exactly one, and leaves `front`, `max_size`, the length of
the block and every other slot unchanged. -/
theorem Queue_enq_success (q : Queue) (e : Ptr) (hroom : q.current_size ≠ q.max_size)
    (he : e ≠ NULL) (hlo : 0 ≤ Int.tmod (q.rear + 1) q.max_size)
    (hhi : Int.tmod (q.rear + 1) q.max_size < q.array.length) :
    (Queue_enq q e).1 = true ∧
    (Queue_enq q e).2.rear = Int.tmod (q.rear + 1) q.max_size ∧
    (0 ≤ q.rear → 0 < q.max_size → (Queue_enq q e).2.rear = (q.rear + 1) % q.max_size) ∧
    readSlot (Queue_enq q e).2.array (Queue_enq q e).2.rear = e ∧
    (Queue_enq q e).2.current_size = q.current_size + 1 ∧
    (Queue_enq q e).2.front = q.front ∧
    (Queue_enq q e).2.max_size = q.max_size ∧
    (Queue_enq q e).2.array.length = q.array.length ∧
    (∀ j : Int, j ≠ (Queue_enq q e).2.rear →
      readSlot (Queue_enq q e).2.array j = readSlot q.array j) := by
  have hcond : ¬ (q.current_size = q.max_size ∨ e = NULL) := by
    rintro (h | h)
    · exact hroom h
    · exact he h
  unfold Queue_enq
  rw [if_neg hcond]
  refine ⟨rfl, rfl, ?_, ?_, rfl, rfl, rfl, ?_, ?_⟩
  · intro h0 hn
    exact Int.tmod_eq_emod (by omega) (le_of_lt hn)
  · exact readSlot_writeSlot_same _ _ _ hlo hhi
  · exact length_writeSlot _ _ _
  · intro j hj
    show readSlot (writeSlot q.array (Int.tmod (q.rear + 1) q.max_size) e) j = readSlot q.array j
    by_cases hj0 : 0 ≤ j
    · exact readSlot_writeSlot_ne _ _ _ _ hlo hj0 (fun h => hj h.symm)
    · simp only [readSlot, hj0, if_false]

/-- Witness of C11: a queue of capacity 3 holding one element in the last slot, so
that the enqueue wraps `rear` round to slot 0. -/
theorem Queue_enq_success_witness :
    oneAtEnd3.current_size ≠ oneAtEnd3.max_size ∧ (7 : Ptr) ≠ NULL ∧
    0 ≤ Int.tmod (oneAtEnd3.rear + 1) oneAtEnd3.max_size ∧
    Int.tmod (oneAtEnd3.rear + 1) oneAtEnd3.max_size < oneAtEnd3.array.length ∧
    Queue_enq oneAtEnd3 7 =
      (true, { front := 2, rear := 0, current_size := 2, max_size := 3,
               array := [7, 5, 6] }) ∧
    readSlot (Queue_enq oneAtEnd3 7).2.array (Queue_enq oneAtEnd3 7).2.rear = 7 :=
  ⟨by decide, by decide, by decide, by decide, by decide,
    (Queue_enq_success oneAtEnd3 7 (by decide) (by decide) (by decide)
      (by decide)).2.2.2.1⟩

/-- C12: on a queue with `current_size = 0`, `Queue_deq` returns NULL and the queue
afterwards (front, rear, current_size, max_size and the slots) is the queue it was
given. -/
theorem Queue_deq_on_empty (q : Queue) (h : q.current_size = 0) :
    (Queue_deq q).1 = NULL ∧ (Queue_deq q).2 = q := by
  rw [Queue_deq_empty q h]
  exact ⟨rfl, rfl⟩

/-- Witness of C12: an empty queue of capacity 3 whose slots still hold stale
values. -/
theorem Queue_deq_on_empty_witness :
    drained3.current_size = 0 ∧
    (Queue_deq drained3).1 = NULL ∧ (Queue_deq drained3).2 = drained3 :=
  ⟨rfl, Queue_deq_on_empty drained3 rfl⟩

/-- C13: on a queue with `current_size > 0`, `Queue_deq` returns the element stored in
the slot at `front` (the entry of the block at index `front` when `front` lies inside
it), sets `front` to `(front + 1) % max_size` (the C remainder, which is the
mathematical one when `front` is not negative and `max_size` is positive), decreases
`current_size` by exactly one, and leaves `rear`, `max_size` and every slot
unchanged. -/
theorem Queue_deq_success (q : Queue) (hpos : 0 < q.current_size) :
    (Queue_deq q).1 = readSlot q.array q.front ∧
    (0 ≤ q.front → q.front < q.array.length →
      q.array[q.front.toNat]? = some (Queue_deq q).1) ∧
    (Queue_deq q).2.front = Int.tmod (q.front + 1) q.max_size ∧
    (0 ≤ q.front → 0 < q.max_size → (Queue_deq q).2.front = (q.front + 1) % q.max_size) ∧
    (Queue_deq q).2.current_size = q.current_size - 1 ∧
    (Queue_deq q).2.rear = q.rear ∧
    (Queue_deq q).2.max_size = q.max_size ∧
    (Queue_deq q).2.array = q.array := by
  have hne : ¬ (q.current_size = 0) := by omega
  have hE : ¬ (Queue_isEmpty q = true) := by simp [Queue_isEmpty, hne]
  unfold Queue_deq
  rw [if_neg hE]
  refine ⟨rfl, ?_, rfl, ?_, rfl, rfl, rfl, rfl⟩
  · intro h0 h1
    have hlt : q.front.toNat < q.array.length := by omega
    simp only [readSlot, h0, if_true, List.getD_eq_getElem?_getD,
      List.getElem?_eq_getElem hlt, Option.getD_some]
  · intro h0 hn
    exact Int.tmod_eq_emod (by omega) (le_of_lt hn)

/-- Witness of C13: a full queue of capacity 3 with `front` at the last slot, so that
the dequeue wraps `front` round to slot 0. -/
theorem Queue_deq_success_witness :
    0 < fullFromEnd3.current_size ∧
    Queue_deq fullFromEnd3 =
      (6, { front := 0, rear := 1, current_size := 2, max_size := 3,
            array := [4, 5, 6] }) ∧
    (Queue_deq fullFromEnd3).1 = readSlot fullFromEnd3.array fullFromEnd3.front :=
  ⟨by decide, by decide, (Queue_deq_success fullFromEnd3 (by decide)).1⟩

/-! ## Well-formedness along runs -/

theorem Queue_call_WF (q : Queue) (op : Op) (hwf : q.WF) :
    (Queue_call q op).2.WF ∧ (Queue_call q op).2.max_size = q.max_size := by
  have hs1 : q.current_size ≤ q.max_size := hwf.2.2.2.2.2.2.2.1
  have hs0 : 0 ≤ q.current_size := hwf.2.2.2.2.2.2.1
  cases op with
  | enq e =>
    by_cases hcond : q.current_size = q.max_size ∨ e = NULL
    · simp only [Queue_call, Queue_enq_fail q e hcond]
      exact ⟨hwf, trivial⟩
    · have hroom : q.current_size < q.max_size := by
        have : q.current_size ≠ q.max_size := fun hh => hcond (Or.inl hh)
        omega
      obtain ⟨_, h2, _, h4, _⟩ := Queue_enq_ok q e hwf hroom (fun hh => hcond (Or.inr hh))
      exact ⟨h2, h4⟩
  | deq =>
    by_cases hz : q.current_size = 0
    · simp only [Queue_call, Queue_deq_empty q hz]
      exact ⟨hwf, trivial⟩
    · obtain ⟨h1, _, h3, _⟩ := Queue_deq_ok q hwf (by omega)
      exact ⟨h1, h3⟩
  | size => exact ⟨hwf, rfl⟩
  | isEmpty => exact ⟨hwf, rfl⟩
  | clear =>
    obtain ⟨h1, _, h3, _⟩ := Queue_clear_spec q hwf
    exact ⟨h1, h3⟩

theorem Queue_run_WF (ops : List Op) (q : Queue) (hwf : q.WF) :
    (Queue_run q ops).2.WF ∧ (Queue_run q ops).2.max_size = q.max_size := by
  induction ops generalizing q with
  | nil => exact ⟨hwf, rfl⟩
  | cons op ops ih =>
    obtain ⟨h1, h2⟩ := Queue_call_WF q op hwf
    obtain ⟨h3, h4⟩ := ih _ h1
    exact ⟨h3, by rw [← h2]; exact h4⟩

/-- A call on the blocking queue that returns, made with the mutex free, returns what
the same call on the inner queue returns, leaves the inner queue as that call leaves
it, leaves the mutex free and does not touch `max_size`. -/
theorem BlockingQueue_call_inner (b b' : BlockingQueue) (op : Op) (r : Ret)
    (hm : b.mutex = false) (h : BlockingQueue_call b op = some (r, b')) :
    r = (Queue_call b.queue op).1 ∧ b'.queue = (Queue_call b.queue op).2 ∧
      b'.mutex = false ∧ b'.max_size = b.max_size := by
  cases op with
  | enq e =>
    simp only [BlockingQueue_call, BlockingQueue_enq, sem_wait, pthread_mutex_lock, hm,
      pthread_mutex_unlock] at h
    split at h
    · simp at h
    · simp only [Bool.false_eq_true, if_false, Option.map_some', Option.some.injEq,
        Prod.mk.injEq] at h
      obtain ⟨h1, h2⟩ := h
      subst h1 h2
      exact ⟨rfl, rfl, rfl, rfl⟩
  | deq =>
    simp only [BlockingQueue_call, BlockingQueue_deq, sem_wait, pthread_mutex_lock, hm,
      pthread_mutex_unlock] at h
    split at h
    · simp at h
    · simp only [Bool.false_eq_true, if_false, Option.map_some', Option.some.injEq,
        Prod.mk.injEq] at h
      obtain ⟨h1, h2⟩ := h
      subst h1 h2
      exact ⟨rfl, rfl, rfl, rfl⟩
  | size =>
    simp only [BlockingQueue_call, BlockingQueue_size, pthread_mutex_lock, hm,
      pthread_mutex_unlock, Bool.false_eq_true, if_false, Option.map_some',
      Option.some.injEq, Prod.mk.injEq] at h
    obtain ⟨h1, h2⟩ := h
    subst h1 h2
    exact ⟨rfl, rfl, rfl, rfl⟩
  | isEmpty =>
    simp only [BlockingQueue_call, BlockingQueue_isEmpty, pthread_mutex_lock, hm,
      pthread_mutex_unlock, Bool.false_eq_true, if_false, Option.map_some',
      Option.some.injEq, Prod.mk.injEq] at h
    obtain ⟨h1, h2⟩ := h
    subst h1 h2
    exact ⟨rfl, rfl, rfl, rfl⟩
  | clear =>
    cases hc : BlockingQueue_clear b with
    | none => simp [BlockingQueue_call, hc] at h
    | some c =>
      simp only [BlockingQueue_call, hc, Option.map_some', Option.some.injEq,
        Prod.mk.injEq] at h
      obtain ⟨h1, h2⟩ := h
      subst h1 h2
      rw [(BlockingQueue_clear_some b c hc).2.1]
      exact ⟨rfl, rfl, rfl, rfl⟩

/-- A run on the blocking queue in which every call returns, started with the mutex
free, returns what the same run on the inner queue returns and leaves the inner queue
as that run leaves it. -/
theorem BlockingQueue_run_inner (ops : List Op) (b b' : BlockingQueue) (rs : List Ret)
    (hm : b.mutex = false) (h : BlockingQueue_run b ops = some (rs, b')) :
    rs = (Queue_run b.queue ops).1 ∧ b'.queue = (Queue_run b.queue ops).2 ∧
      b'.mutex = false ∧ b'.max_size = b.max_size := by
  induction ops generalizing b rs with
  | nil =>
    simp only [BlockingQueue_run, Option.some.injEq, Prod.mk.injEq] at h
    obtain ⟨h1, h2⟩ := h
    subst h1 h2
    exact ⟨rfl, rfl, hm, rfl⟩
  | cons op ops ih =>
    unfold BlockingQueue_run at h
    cases hc : BlockingQueue_call b op with
    | none => rw [hc] at h; simp at h
    | some p =>
      obtain ⟨r, b1⟩ := p
      simp only [hc] at h
      obtain ⟨c1, c2, c3, c4⟩ := BlockingQueue_call_inner b b1 op r hm hc
      cases hr : BlockingQueue_run b1 ops with
      | none => simp [hr] at h
      | some p2 =>
        obtain ⟨rs2, b2⟩ := p2
        simp only [hr, Option.some.injEq, Prod.mk.injEq] at h
        obtain ⟨h1, h2⟩ := h
        subst h1 h2
        obtain ⟨i1, i2, i3, i4⟩ := ih b1 rs2 c3 hr
        simp only [Queue_run]
        refine ⟨by rw [c1, i1, c2], by rw [i2, c2], i3, by rw [i4, c4]⟩

theorem new_BlockingQueue_ok (heap : Nat → Ptr) (n : Int) (hn : 0 < n) :
    ∃ q0, new_Queue heap n = some q0 ∧
      new_BlockingQueue (Env.allOk heap) n =
        Created.ok { queue := q0, mutex := false, full_slots := 0, empty_slots := n.toNat,
                     max_size := n, initialized := 4 } := by
  obtain ⟨q0, hq, _⟩ := new_Queue_spec heap n hn
  refine ⟨q0, hq, ?_⟩
  simp only [new_BlockingQueue, Env.allOk, hq, cleanup_exit]
  rfl

theorem new_Queue_fields (heap : Nat → Ptr) (n : Int) (q : Queue)
    (h : new_Queue heap n = some q) :
    q.front = 0 ∧ q.rear = n - 1 ∧ q.current_size = 0 ∧ q.max_size = n := by
  unfold new_Queue at h
  split at h
  · exact Option.noConfusion h
  · cases h
    exact ⟨rfl, rfl, rfl, rfl⟩

/-! ## Range of the count, clearing, construction -/

/-- C14: the count stays in range.  For every capacity `n > 0` and every sequence of
calls, `new_Queue n` succeeds and the queue reached has `0 ≤ current_size ≤ max_size`
with `max_size = n`, so `Queue_size` lies in `[0, n]`; and `new_BlockingQueue n`
succeeds (every platform step succeeding) and, whenever the calls of the sequence all
return, the inner queue reached has `0 ≤ current_size ≤ max_size = n` and
`BlockingQueue_size` returns a value in `[0, n]`. -/
theorem current_size_in_range (heap : Nat → Ptr) (n : Int) (ops : List Op) (hn : 0 < n) :
    (∃ q0, new_Queue heap n = some q0 ∧
      0 ≤ (Queue_run q0 ops).2.current_size ∧
      (Queue_run q0 ops).2.current_size ≤ (Queue_run q0 ops).2.max_size ∧
      (Queue_run q0 ops).2.max_size = n ∧
      0 ≤ Queue_size (Queue_run q0 ops).2 ∧ Queue_size (Queue_run q0 ops).2 ≤ n) ∧
    (∃ b0, new_BlockingQueue (Env.allOk heap) n = Created.ok b0 ∧
      ∀ rs b, BlockingQueue_run b0 ops = some (rs, b) →
        0 ≤ b.queue.current_size ∧ b.queue.current_size ≤ b.queue.max_size ∧
        b.queue.max_size = n ∧
        ∃ s, (BlockingQueue_size b).map (fun r => r.1) = some s ∧ 0 ≤ s ∧ s ≤ n) := by
  obtain ⟨q0, hq, hb⟩ := new_BlockingQueue_ok heap n hn
  obtain ⟨q0', hq', hwf, _, hmax, _⟩ := new_Queue_spec heap n hn
  rw [hq] at hq'
  cases hq'
  obtain ⟨hwf1, hmax1⟩ := Queue_run_WF ops q0 hwf
  have hs0 : 0 ≤ (Queue_run q0 ops).2.current_size := hwf1.2.2.2.2.2.2.1
  have hs1 : (Queue_run q0 ops).2.current_size ≤ (Queue_run q0 ops).2.max_size :=
    hwf1.2.2.2.2.2.2.2.1
  have hn1 : (Queue_run q0 ops).2.max_size = n := by rw [hmax1, hmax]
  refine ⟨⟨q0, hq, hs0, hs1, hn1, hs0, ?_⟩, ⟨_, hb, ?_⟩⟩
  · show (Queue_run q0 ops).2.current_size ≤ n
    omega
  · intro rs b hrun
    obtain ⟨_, h2, h3, _⟩ := BlockingQueue_run_inner ops _ b rs rfl hrun
    have h2' : b.queue = (Queue_run q0 ops).2 := h2
    rw [h2']
    refine ⟨hs0, hs1, hn1, (Queue_run q0 ops).2.current_size, ?_, hs0, by omega⟩
    simp only [BlockingQueue_size, pthread_mutex_lock, h3, Bool.false_eq_true, if_false,
      Option.map_some', h2', Queue_size]

/-- Witness of C14: capacity 2, a run that overfills, drains past empty and clears. -/
theorem current_size_in_range_witness :
    (0 : Int) < 2 ∧
    ((∃ q0, new_Queue zeroHeap 2 = some q0 ∧
      0 ≤ (Queue_run q0 [Op.enq 5, Op.enq 6, Op.enq 7, Op.deq, Op.deq, Op.deq,
        Op.clear, Op.enq 8]).2.current_size ∧
      (Queue_run q0 [Op.enq 5, Op.enq 6, Op.enq 7, Op.deq, Op.deq, Op.deq,
        Op.clear, Op.enq 8]).2.current_size ≤
        (Queue_run q0 [Op.enq 5, Op.enq 6, Op.enq 7, Op.deq, Op.deq, Op.deq,
          Op.clear, Op.enq 8]).2.max_size ∧
      (Queue_run q0 [Op.enq 5, Op.enq 6, Op.enq 7, Op.deq, Op.deq, Op.deq,
        Op.clear, Op.enq 8]).2.max_size = 2 ∧
      0 ≤ Queue_size (Queue_run q0 [Op.enq 5, Op.enq 6, Op.enq 7, Op.deq, Op.deq, Op.deq,
        Op.clear, Op.enq 8]).2 ∧
      Queue_size (Queue_run q0 [Op.enq 5, Op.enq 6, Op.enq 7, Op.deq, Op.deq, Op.deq,
        Op.clear, Op.enq 8]).2 ≤ 2) ∧
    (∃ b0, new_BlockingQueue (Env.allOk zeroHeap) 2 = Created.ok b0 ∧
      ∀ rs b, BlockingQueue_run b0 [Op.enq 5, Op.enq 6, Op.enq 7, Op.deq, Op.deq, Op.deq,
          Op.clear, Op.enq 8] = some (rs, b) →
        0 ≤ b.queue.current_size ∧ b.queue.current_size ≤ b.queue.max_size ∧
        b.queue.max_size = 2 ∧
        ∃ s, (BlockingQueue_size b).map (fun r => r.1) = some s ∧ 0 ≤ s ∧ s ≤ 2)) :=
  ⟨by decide, current_size_in_range zeroHeap 2 _ (by decide)⟩

/-- C15: for every queue, after `Queue_clear` the call `Queue_size` returns 0,
`Queue_isEmpty` returns true, `front` is 0, `Queue_deq` returns NULL, and `max_size`
and the contents of the slot block are what they were before the clear. -/
theorem Queue_clear_effect (q : Queue) :
    Queue_size (Queue_clear q) = 0 ∧
    Queue_isEmpty (Queue_clear q) = true ∧
    (Queue_clear q).front = 0 ∧
    (Queue_deq (Queue_clear q)).1 = NULL ∧
    (Queue_clear q).max_size = q.max_size ∧
    (Queue_clear q).array = q.array := by
  refine ⟨rfl, ?_, rfl, ?_, rfl, rfl⟩
  · simp [Queue_isEmpty, Queue_clear]
  · rw [Queue_deq_empty (Queue_clear q) rfl]

/-- C16: `Queue_clear` returns the queue to the freshly created state.  For every
capacity `n > 0` and every queue `q` reached from `new_Queue n` by a sequence of calls,
the fields `front`, `rear` and `current_size` of `Queue_clear q` equal those of a queue
freshly made by `new_Queue n` (whatever its slots contain), every further sequence of
calls returns on `Queue_clear q` what it returns on the fresh queue, and enqueueing a
non-NULL `x` and then dequeueing returns true and `x`. -/
theorem Queue_clear_like_new (heap heap' : Nat → Ptr) (n : Int) (ops1 ops2 : List Op)
    (hn : 0 < n) :
    ∃ q0 q0', new_Queue heap n = some q0 ∧ new_Queue heap' n = some q0' ∧
      (Queue_clear (Queue_run q0 ops1).2).front = q0'.front ∧
      (Queue_clear (Queue_run q0 ops1).2).rear = q0'.rear ∧
      (Queue_clear (Queue_run q0 ops1).2).current_size = q0'.current_size ∧
      (Queue_run (Queue_clear (Queue_run q0 ops1).2) ops2).1 = (Queue_run q0' ops2).1 ∧
      ∀ x : Ptr, x ≠ NULL →
        (Queue_run (Queue_clear (Queue_run q0 ops1).2) [Op.enq x, Op.deq]).1 =
          [Ret.bool true, Ret.ptr x] := by
  obtain ⟨q0, hq, hsim⟩ := Sim_new heap n hn
  obtain ⟨q0', hq', hsim'⟩ := Sim_new heap' n hn
  obtain ⟨hf', hr', hs', _⟩ := new_Queue_fields heap' n q0' hq'
  obtain ⟨hwf1, hmax1⟩ := Queue_run_WF ops1 q0 hsim.1
  have hn1 : (Queue_run q0 ops1).2.max_size = n := by
    rw [hmax1, ← hsim.2.2.1]; rfl
  obtain ⟨hwfc, hcc, hmc, _⟩ := Queue_clear_spec _ hwf1
  have hsimc : Sim (Queue_clear (Queue_run q0 ops1).2) (ListQueue.new n) :=
    ⟨hwfc, hcc, by rw [hmc, hn1]; rfl, by intro x hx; cases hx⟩
  have hres : ∀ ops, (Queue_run (Queue_clear (Queue_run q0 ops1).2) ops).1 =
      (Queue_run q0' ops).1 := by
    intro ops
    rw [(Sim_run ops _ _ hsimc).1, (Sim_run ops _ _ hsim').1]
  refine ⟨q0, q0', hq, hq', ?_, ?_, ?_, hres ops2, ?_⟩
  · rw [hf']; rfl
  · rw [hr']
    show (Queue_run q0 ops1).2.max_size - 1 = n - 1
    rw [hn1]
  · rw [hs']; rfl
  · intro x hx
    rw [(Sim_run _ _ _ hsimc).1]
    have hc : ¬ (((([] : List Ptr).length : Nat) : Int) = n ∨ x = NULL) := by
      rintro (h | h)
      · simp only [List.length_nil, Nat.cast_zero] at h
        omega
      · exact hx h
    simp only [ListQueue.run, ListQueue.call, ListQueue.enq, ListQueue.new, hc, if_false,
      ListQueue.deq, List.nil_append]

/-- Witness of C16: capacity 2, a first run that leaves `front` and `rear` moved and
one element stored, then a second run after the clear. -/
theorem Queue_clear_like_new_witness :
    (0 : Int) < 2 ∧
    ∃ q0 q0', new_Queue zeroHeap 2 = some q0 ∧ new_Queue zeroHeap 2 = some q0' ∧
      (Queue_clear (Queue_run q0 [Op.enq 5, Op.deq, Op.enq 6]).2).front = q0'.front ∧
      (Queue_clear (Queue_run q0 [Op.enq 5, Op.deq, Op.enq 6]).2).rear = q0'.rear ∧
      (Queue_clear (Queue_run q0 [Op.enq 5, Op.deq, Op.enq 6]).2).current_size =
        q0'.current_size ∧
      (Queue_run (Queue_clear (Queue_run q0 [Op.enq 5, Op.deq, Op.enq 6]).2)
          [Op.deq, Op.enq 7, Op.enq 8, Op.enq 9, Op.size, Op.deq]).1 =
        (Queue_run q0' [Op.deq, Op.enq 7, Op.enq 8, Op.enq 9, Op.size, Op.deq]).1 ∧
      ∀ x : Ptr, x ≠ NULL →
        (Queue_run (Queue_clear (Queue_run q0 [Op.enq 5, Op.deq, Op.enq 6]).2)
          [Op.enq x, Op.deq]).1 = [Ret.bool true, Ret.ptr x] :=
  ⟨by decide, Queue_clear_like_new zeroHeap zeroHeap 2 _ _ (by decide)⟩

/-- C17: allocation succeeding, `new_Queue(max_size)` returns NULL exactly when
`max_size ≤ 0`. -/
theorem new_Queue_null_iff (heap : Nat → Ptr) (max_size : Int) :
    new_Queue heap max_size = none ↔ max_size ≤ 0 := by
  unfold new_Queue
  split
  · exact ⟨fun _ => ‹_›, fun _ => rfl⟩
  · exact ⟨fun h => Option.noConfusion h, fun h => absurd h ‹_›⟩

/-- C18: for every `max_size > 0`, `new_Queue(max_size)` returns a queue on which
`Queue_size` returns 0, `Queue_isEmpty` returns true and `Queue_deq` returns NULL, and
whose `max_size` field is the argument. -/
theorem new_Queue_is_empty (heap : Nat → Ptr) (max_size : Int) (hpos : 0 < max_size) :
    ∃ q, new_Queue heap max_size = some q ∧
      Queue_size q = 0 ∧ Queue_isEmpty q = true ∧ (Queue_deq q).1 = NULL ∧
      q.max_size = max_size := by
  obtain ⟨q, hq, _, _, hmax, hz⟩ := new_Queue_spec heap max_size hpos
  refine ⟨q, hq, hz, ?_, ?_, hmax⟩
  · simp [Queue_isEmpty, hz]
  · rw [Queue_deq_empty q hz]

/-- Witness of C18: capacity 3. -/
theorem new_Queue_is_empty_witness :
    (0 : Int) < 3 ∧
    ∃ q, new_Queue zeroHeap 3 = some q ∧
      Queue_size q = 0 ∧ Queue_isEmpty q = true ∧ (Queue_deq q).1 = NULL ∧
      q.max_size = 3 :=
  ⟨by decide, new_Queue_is_empty zeroHeap 3 (by decide)⟩

/-- C19: for every queue, `Queue_size` returns `current_size`, `Queue_isEmpty` returns
true exactly when `Queue_size` returns 0, and a call to either leaves the queue (every
field and every slot) as it was. -/
theorem Queue_size_isEmpty_pure (q : Queue) :
    Queue_size q = q.current_size ∧
    (Queue_isEmpty q = true ↔ Queue_size q = 0) ∧
    Queue_call q Op.size = (Ret.int q.current_size, q) ∧
    Queue_call q Op.isEmpty = (Ret.bool (Queue_isEmpty q), q) := by
  refine ⟨rfl, ?_, rfl, rfl⟩
  simp [Queue_isEmpty, Queue_size]

/-- C20: when the allocation and the initialisations of the mutex and of the two
semaphores succeed, `new_BlockingQueue(max_size)` returns NULL exactly when
`max_size ≤ 0`; for `max_size > 0` it returns a blocking queue. -/
theorem new_BlockingQueue_null_iff (env : Env) (max_size : Int)
    (hmalloc : env.malloc_ok = true) (hmutex : env.mutex_init_ok = true)
    (hfull : env.full_init_ok = true) (hempty : env.empty_init_ok = true) :
    (new_BlockingQueue env max_size = Created.null ↔ max_size ≤ 0) ∧
    (0 < max_size → ∃ b, new_BlockingQueue env max_size = Created.ok b) := by
  by_cases hn : max_size ≤ 0
  · have hq : new_Queue env.heap max_size = none := (new_Queue_null_iff _ _).mpr hn
    simp only [new_BlockingQueue, hmalloc, hq]
    exact ⟨⟨fun _ => hn, fun _ => rfl⟩, fun h => absurd h (by omega)⟩
  · obtain ⟨q, hq, _⟩ := new_Queue_spec env.heap max_size (by omega)
    simp only [new_BlockingQueue, hmalloc, hmutex, hfull, hempty, hq]
    exact ⟨⟨fun h => Created.noConfusion h, fun h => absurd h hn⟩, fun _ => ⟨_, rfl⟩⟩

/-- Witness of C20: the environment in which every step succeeds, capacity 0. -/
theorem new_BlockingQueue_null_iff_witness :
    (Env.allOk zeroHeap).malloc_ok = true ∧ (Env.allOk zeroHeap).mutex_init_ok = true ∧
    (Env.allOk zeroHeap).full_init_ok = true ∧ (Env.allOk zeroHeap).empty_init_ok = true ∧
    (new_BlockingQueue (Env.allOk zeroHeap) 0 = Created.null ↔ (0 : Int) ≤ 0) ∧
    ((0 : Int) < 0 → ∃ b, new_BlockingQueue (Env.allOk zeroHeap) 0 = Created.ok b) :=
  ⟨rfl, rfl, rfl, rfl, new_BlockingQueue_null_iff (Env.allOk zeroHeap) 0 rfl rfl rfl rfl⟩


/-! ## Closed forms of the blocking operations -/

/-- What `BlockingQueue_enq` does when it does not block: one unit leaves
`empty_slots`, the inner queue goes through `Queue_enq`, one unit enters `full_slots`,
and the flag of `Queue_enq` is returned. -/
theorem BlockingQueue_enq_eq (b : BlockingQueue) (e : Ptr) (hm : b.mutex = false)
    (hs : 0 < b.empty_slots) :
    BlockingQueue_enq b e =
      some ((Queue_enq b.queue e).1,
        { b with
            queue := (Queue_enq b.queue e).2
            empty_slots := b.empty_slots - 1
            full_slots := b.full_slots + 1
            mutex := false }) := by
  have hne : ¬ (b.empty_slots = 0) := by omega
  simp only [BlockingQueue_enq, sem_wait, hne, if_false, pthread_mutex_lock, hm,
    Bool.false_eq_true, pthread_mutex_unlock, sem_post]

/-- What `BlockingQueue_deq` does when it does not block: one unit leaves
`full_slots`, the inner queue goes through `Queue_deq`, one unit enters `empty_slots`,
and the pointer of `Queue_deq` is returned. -/
theorem BlockingQueue_deq_eq (b : BlockingQueue) (hm : b.mutex = false)
    (hs : 0 < b.full_slots) :
    BlockingQueue_deq b =
      some ((Queue_deq b.queue).1,
        { b with
            queue := (Queue_deq b.queue).2
            full_slots := b.full_slots - 1
            empty_slots := b.empty_slots + 1
            mutex := false }) := by
  have hne : ¬ (b.full_slots = 0) := by omega
  simp only [BlockingQueue_deq, sem_wait, hne, if_false, pthread_mutex_lock, hm,
    Bool.false_eq_true, pthread_mutex_unlock, sem_post]

theorem BlockingQueue_enq_blocks (b : BlockingQueue) (e : Ptr) (hs : b.empty_slots = 0) :
    BlockingQueue_enq b e = none := by
  simp only [BlockingQueue_enq, sem_wait, hs, if_true]

theorem BlockingQueue_size_eq (b : BlockingQueue) (hm : b.mutex = false) :
    BlockingQueue_size b = some (Queue_size b.queue, b) := by
  simp only [BlockingQueue_size, pthread_mutex_lock, hm, Bool.false_eq_true, if_false,
    pthread_mutex_unlock]
  rw [← hm]

theorem BlockingQueue_isEmpty_eq (b : BlockingQueue) (hm : b.mutex = false) :
    BlockingQueue_isEmpty b = some (Queue_isEmpty b.queue, b) := by
  simp only [BlockingQueue_isEmpty, pthread_mutex_lock, hm, Bool.false_eq_true, if_false,
    pthread_mutex_unlock]
  rw [← hm]

theorem BlockingQueue_run_append (ops1 ops2 : List Op) (b b1 b2 : BlockingQueue)
    (rs1 rs2 : List Ret) (h1 : BlockingQueue_run b ops1 = some (rs1, b1))
    (h2 : BlockingQueue_run b1 ops2 = some (rs2, b2)) :
    BlockingQueue_run b (ops1 ++ ops2) = some (rs1 ++ rs2, b2) := by
  induction ops1 generalizing b rs1 with
  | nil =>
    simp only [BlockingQueue_run, Option.some.injEq, Prod.mk.injEq] at h1
    obtain ⟨e1, e2⟩ := h1
    subst e1 e2
    exact h2
  | cons op ops ih =>
    unfold BlockingQueue_run at h1
    rw [List.cons_append]
    unfold BlockingQueue_run
    cases hc : BlockingQueue_call b op with
    | none => rw [hc] at h1; simp at h1
    | some p =>
      obtain ⟨r, b'⟩ := p
      simp only [hc] at h1 ⊢
      cases hr : BlockingQueue_run b' ops with
      | none => simp [hr] at h1
      | some p2 =>
        obtain ⟨rs', b''⟩ := p2
        simp only [hr, Option.some.injEq, Prod.mk.injEq] at h1
        obtain ⟨e1, e2⟩ := h1
        subst e1 e2
        rw [ih b' rs' hr]
        rfl

/-- A run of enqueues that finds enough units in `empty_slots` returns: the flags are
those of the same enqueues on the inner queue, and each call moves one unit from
`empty_slots` to `full_slots`. -/
theorem BlockingQueue_run_enqs (l : List Ptr) (b : BlockingQueue) (hm : b.mutex = false)
    (hl : l.length ≤ b.empty_slots) :
    BlockingQueue_run b (l.map Op.enq) =
      some ((Queue_enqAll b.queue l).1.map Ret.bool,
        { b with
            queue := (Queue_enqAll b.queue l).2
            empty_slots := b.empty_slots - l.length
            full_slots := b.full_slots + l.length
            mutex := false }) := by
  induction l generalizing b with
  | nil =>
    simp only [List.map_nil, BlockingQueue_run, Queue_enqAll, List.length_nil,
      Nat.sub_zero, Nat.add_zero]
    rw [← hm]
  | cons e es ih =>
    simp only [List.length_cons] at hl
    have h1 := BlockingQueue_enq_eq b e hm (by omega)
    simp only [List.map_cons, BlockingQueue_run, BlockingQueue_call, h1, Option.map_some']
    rw [ih _ rfl (by show es.length ≤ b.empty_slots - 1; omega)]
    simp only [Queue_enqAll, List.map_cons, List.length_cons, Option.some.injEq,
      Prod.mk.injEq, true_and, BlockingQueue.mk.injEq, and_true]
    omega

/-- A run of dequeues that finds enough units in `full_slots` returns: the pointers
are those of the same dequeues on the inner queue, and each call moves one unit from
`full_slots` to `empty_slots`. -/
theorem BlockingQueue_run_deqs (k : Nat) (b : BlockingQueue) (hm : b.mutex = false)
    (hk : k ≤ b.full_slots) :
    BlockingQueue_run b (List.replicate k Op.deq) =
      some ((Queue_deqN b.queue k).1.map Ret.ptr,
        { b with
            queue := (Queue_deqN b.queue k).2
            full_slots := b.full_slots - k
            empty_slots := b.empty_slots + k
            mutex := false }) := by
  induction k generalizing b with
  | zero =>
    simp only [List.replicate_zero, BlockingQueue_run, Queue_deqN, List.map_nil,
      Nat.sub_zero, Nat.add_zero]
    rw [← hm]
  | succ k ih =>
    have h1 := BlockingQueue_deq_eq b hm (by omega)
    simp only [List.replicate_succ, BlockingQueue_run, BlockingQueue_call, h1,
      Option.map_some']
    rw [ih _ rfl (by show k ≤ b.full_slots - 1; omega)]
    simp only [Queue_deqN, List.map_cons, Option.some.injEq,
      Prod.mk.injEq, true_and, BlockingQueue.mk.injEq, and_true]
    omega

/-! ## Single calls on the blocking queue -/

theorem Queue_enq_true (q : Queue) (e : Ptr) (hroom : q.current_size ≠ q.max_size)
    (he : e ≠ NULL) :
    (Queue_enq q e).1 = true ∧ (Queue_enq q e).2.current_size = q.current_size + 1 ∧
      (Queue_enq q e).2.rear = Int.tmod (q.rear + 1) q.max_size := by
  have hcond : ¬ (q.current_size = q.max_size ∨ e = NULL) := by
    rintro (h | h)
    · exact hroom h
    · exact he h
  unfold Queue_enq
  rw [if_neg hcond]
  exact ⟨rfl, rfl, rfl⟩

theorem Queue_deq_nonempty (q : Queue) (hne : q.current_size ≠ 0) :
    (Queue_deq q).1 = readSlot q.array q.front ∧
      (Queue_deq q).2.current_size = q.current_size - 1 ∧
      (Queue_deq q).2.front = Int.tmod (q.front + 1) q.max_size := by
  have hE : ¬ (Queue_isEmpty q = true) := by simp [Queue_isEmpty, hne]
  unfold Queue_deq
  rw [if_neg hE]
  exact ⟨rfl, rfl, rfl⟩

/-- C21: for every `max_size > 0`, `new_BlockingQueue(max_size)` (every platform step
succeeding) returns a blocking queue with `full_slots = 0`, `empty_slots = max_size`,
an inner buffer that holds nothing and has capacity `max_size`, on which
`BlockingQueue_size` returns 0 and `BlockingQueue_isEmpty` returns true. -/
theorem new_BlockingQueue_fresh (heap : Nat → Ptr) (max_size : Int) (hpos : 0 < max_size) :
    ∃ b, new_BlockingQueue (Env.allOk heap) max_size = Created.ok b ∧
      b.full_slots = 0 ∧ (b.empty_slots : Int) = max_size ∧
      b.queue.current_size = 0 ∧ b.queue.contents = [] ∧
      b.queue.max_size = max_size ∧ (b.queue.array.length : Int) = max_size ∧
      b.max_size = max_size ∧
      BlockingQueue_size b = some (0, b) ∧ BlockingQueue_isEmpty b = some (true, b) := by
  obtain ⟨q0, hq, hb⟩ := new_BlockingQueue_ok heap max_size hpos
  obtain ⟨q0', hq', hwf, hc, hmax, hz⟩ := new_Queue_spec heap max_size hpos
  rw [hq] at hq'
  cases hq'
  refine ⟨_, hb, rfl, ?_, hz, hc, hmax, ?_, rfl, ?_, ?_⟩
  · show ((max_size.toNat : Nat) : Int) = max_size
    omega
  · have := hwf.2.1
    rw [hmax] at this
    exact this
  · rw [BlockingQueue_size_eq _ rfl]
    show some (q0.current_size, _) = _
    rw [hz]
  · rw [BlockingQueue_isEmpty_eq _ rfl]
    have : Queue_isEmpty q0 = true := by simp [Queue_isEmpty, hz]
    show some (Queue_isEmpty q0, _) = _
    rw [this]

/-- Witness of C21: capacity 2. -/
theorem new_BlockingQueue_fresh_witness :
    (0 : Int) < 2 ∧
    ∃ b, new_BlockingQueue (Env.allOk zeroHeap) 2 = Created.ok b ∧
      b.full_slots = 0 ∧ (b.empty_slots : Int) = 2 ∧
      b.queue.current_size = 0 ∧ b.queue.contents = [] ∧
      b.queue.max_size = 2 ∧ (b.queue.array.length : Int) = 2 ∧
      b.max_size = 2 ∧
      BlockingQueue_size b = some (0, b) ∧ BlockingQueue_isEmpty b = some (true, b) :=
  ⟨by decide, new_BlockingQueue_fresh zeroHeap 2 (by decide)⟩

/-- C22: on a blocking queue whose mutex is free, with `empty_slots > 0`, an inner
buffer that is not full and a non-NULL element `e`, `BlockingQueue_enq` returns true,
decreases `empty_slots` by exactly one, increases `full_slots` by exactly one and
changes the inner buffer exactly as `Queue_enq(e)` does: `current_size` grows by one
and, on a well-formed buffer, `e` is appended behind the elements held. -/
theorem BlockingQueue_enq_success (b : BlockingQueue) (e : Ptr) (hm : b.mutex = false)
    (hs : 0 < b.empty_slots) (hroom : b.queue.current_size ≠ b.queue.max_size)
    (he : e ≠ NULL) :
    ∃ b', BlockingQueue_enq b e = some (true, b') ∧
      b'.empty_slots + 1 = b.empty_slots ∧
      b'.full_slots = b.full_slots + 1 ∧
      b'.queue = (Queue_enq b.queue e).2 ∧
      b'.queue.current_size = b.queue.current_size + 1 ∧
      (b.queue.WF → b'.queue.contents = b.queue.contents ++ [e]) ∧
      b'.max_size = b.max_size ∧ b'.mutex = false := by
  obtain ⟨h1, h2, _⟩ := Queue_enq_true b.queue e hroom he
  have heq := BlockingQueue_enq_eq b e hm hs
  rw [h1] at heq
  refine ⟨_, heq, ?_, rfl, rfl, h2, ?_, rfl, rfl⟩
  · show b.empty_slots - 1 + 1 = b.empty_slots
    omega
  · intro hwf
    have hlt : b.queue.current_size < b.queue.max_size := by
      have := hwf.2.2.2.2.2.2.2.1
      omega
    exact (Queue_enq_ok b.queue e hwf hlt he).2.2.1

/-- Witness of C22: the fresh blocking queue of capacity 2 and the element 5. -/
theorem BlockingQueue_enq_success_witness :
    fresh2.mutex = false ∧ 0 < fresh2.empty_slots ∧
    fresh2.queue.current_size ≠ fresh2.queue.max_size ∧ (5 : Ptr) ≠ NULL ∧
    BlockingQueue_enq fresh2 5 = some (true, holding2) ∧
    ∃ b', BlockingQueue_enq fresh2 5 = some (true, b') ∧
      b'.empty_slots + 1 = fresh2.empty_slots ∧
      b'.full_slots = fresh2.full_slots + 1 ∧
      b'.queue = (Queue_enq fresh2.queue 5).2 ∧
      b'.queue.current_size = fresh2.queue.current_size + 1 ∧
      (fresh2.queue.WF → b'.queue.contents = fresh2.queue.contents ++ [5]) ∧
      b'.max_size = fresh2.max_size ∧ b'.mutex = false :=
  ⟨by decide, by decide, by decide, by decide, by decide,
    BlockingQueue_enq_success fresh2 5 (by decide) (by decide) (by decide) (by decide)⟩

/-- C23: on a blocking queue whose mutex is free, with `full_slots > 0` and a
non-empty inner buffer, `BlockingQueue_deq` returns the element in the slot at `front`
of the inner buffer, decreases `full_slots` by exactly one, increases `empty_slots` by
exactly one and changes the inner buffer exactly as `Queue_deq` does: `current_size`
drops by one, `front` advances circularly and, on a well-formed buffer, the element
returned is the oldest one and the others stay in order. -/
theorem BlockingQueue_deq_success (b : BlockingQueue) (hm : b.mutex = false)
    (hs : 0 < b.full_slots) (hpos : 0 < b.queue.current_size) :
    ∃ b', BlockingQueue_deq b = some (readSlot b.queue.array b.queue.front, b') ∧
      b'.full_slots + 1 = b.full_slots ∧
      b'.empty_slots = b.empty_slots + 1 ∧
      b'.queue = (Queue_deq b.queue).2 ∧
      b'.queue.current_size = b.queue.current_size - 1 ∧
      b'.queue.front = Int.tmod (b.queue.front + 1) b.queue.max_size ∧
      (b.queue.WF →
        b.queue.contents = readSlot b.queue.array b.queue.front :: b'.queue.contents) ∧
      b'.max_size = b.max_size ∧ b'.mutex = false := by
  obtain ⟨h1, h2, h3⟩ := Queue_deq_nonempty b.queue (by omega)
  have heq := BlockingQueue_deq_eq b hm hs
  rw [h1] at heq
  refine ⟨_, heq, ?_, rfl, rfl, h2, h3, ?_, rfl, rfl⟩
  · show b.full_slots - 1 + 1 = b.full_slots
    omega
  · intro hwf
    have := (Queue_deq_ok b.queue hwf hpos).2.1
    rw [h1] at this
    exact this

/-- Witness of C23: the blocking queue of capacity 2 holding the element 5. -/
theorem BlockingQueue_deq_success_witness :
    holding2.mutex = false ∧ 0 < holding2.full_slots ∧
    0 < holding2.queue.current_size ∧
    BlockingQueue_deq holding2 = some (5, cycled2) ∧
    ∃ b', BlockingQueue_deq holding2 =
        some (readSlot holding2.queue.array holding2.queue.front, b') ∧
      b'.full_slots + 1 = holding2.full_slots ∧
      b'.empty_slots = holding2.empty_slots + 1 ∧
      b'.queue = (Queue_deq holding2.queue).2 ∧
      b'.queue.current_size = holding2.queue.current_size - 1 ∧
      b'.queue.front = Int.tmod (holding2.queue.front + 1) holding2.queue.max_size ∧
      (holding2.queue.WF →
        holding2.queue.contents =
          readSlot holding2.queue.array holding2.queue.front :: b'.queue.contents) ∧
      b'.max_size = holding2.max_size ∧ b'.mutex = false :=
  ⟨by decide, by decide, by decide, by decide,
    BlockingQueue_deq_success holding2 (by decide) (by decide) (by decide)⟩

/-! ## Runs on the blocking queue -/

/-- What holds of every blocking queue reached from `new_BlockingQueue n` by calls that
all returned: the mutex is free, the inner buffer is well formed, and both `max_size`
fields are `n`. -/
theorem BlockingQueue_reached (heap : Nat → Ptr) (n : Int) (ops : List Op)
    (b0 b : BlockingQueue) (rs : List Ret) (hn : 0 < n)
    (hnew : new_BlockingQueue (Env.allOk heap) n = Created.ok b0)
    (hrun : BlockingQueue_run b0 ops = some (rs, b)) :
    b.mutex = false ∧ b.queue.WF ∧ b.queue.max_size = n ∧ b.max_size = n := by
  obtain ⟨q0, hq, hb⟩ := new_BlockingQueue_ok heap n hn
  obtain ⟨q0', hq', hwf, _, hmax, _⟩ := new_Queue_spec heap n hn
  rw [hq] at hq'
  cases hq'
  rw [hnew] at hb
  cases hb
  obtain ⟨_, h2, h3, h4⟩ := BlockingQueue_run_inner ops _ b rs rfl hrun
  obtain ⟨hwf1, hmax1⟩ := Queue_run_WF ops q0 hwf
  have h2' : b.queue = (Queue_run q0 ops).2 := h2
  refine ⟨h3, by rw [h2']; exact hwf1, by rw [h2', hmax1, hmax], h4⟩

/-- Round trip on a blocking queue with a free mutex, a well-formed empty inner
buffer and a unit in `empty_slots`. -/
theorem BlockingQueue_round_trip_WF (b : BlockingQueue) (x : Ptr) (hm : b.mutex = false)
    (hwf : b.queue.WF) (hempty : b.queue.current_size = 0) (hs : 0 < b.empty_slots)
    (hx : x ≠ NULL) :
    ∃ b', BlockingQueue_run b [Op.enq x, Op.deq, Op.isEmpty] =
      some ([Ret.bool true, Ret.ptr x, Ret.bool true], b') := by
  have hn : 0 < b.queue.max_size := hwf.1
  obtain ⟨e1, e2, e3, _, e5⟩ := Queue_enq_ok b.queue x hwf (by omega) hx
  have hc0 : b.queue.contents = [] := by
    apply List.eq_nil_of_length_eq_zero
    rw [length_contents, hempty]
    rfl
  rw [hc0, List.nil_append] at e3
  obtain ⟨d1, d2, _, d4⟩ := Queue_deq_ok (Queue_enq b.queue x).2 e2 (by rw [e5]; omega)
  rw [e3] at d2
  have hd : (Queue_deq (Queue_enq b.queue x).2).1 = x := (List.cons.inj d2).1.symm
  have hz : (Queue_deq (Queue_enq b.queue x).2).2.current_size = 0 := by
    rw [d4, e5, hempty]
    rfl
  have hE : Queue_isEmpty (Queue_deq (Queue_enq b.queue x).2).2 = true := by
    simp [Queue_isEmpty, hz]
  have s1 := BlockingQueue_enq_eq b x hm hs
  rw [e1] at s1
  have s2 := BlockingQueue_deq_eq
    { b with
        queue := (Queue_enq b.queue x).2
        empty_slots := b.empty_slots - 1
        full_slots := b.full_slots + 1
        mutex := false } rfl (Nat.succ_pos _)
  simp only [hd] at s2
  refine ⟨{ b with
              queue := (Queue_deq (Queue_enq b.queue x).2).2
              full_slots := b.full_slots + 1 - 1
              empty_slots := b.empty_slots - 1 + 1
              mutex := false }, ?_⟩
  have s3 := BlockingQueue_isEmpty_eq
    { b with
        queue := (Queue_deq (Queue_enq b.queue x).2).2
        full_slots := b.full_slots + 1 - 1
        empty_slots := b.empty_slots - 1 + 1
        mutex := false } rfl
  simp only [hE] at s3
  simp only [BlockingQueue_run, BlockingQueue_call, s1, Option.map_some', s2, s3]

/-- C24: round trip on the blocking queue.  On every state reached from
`new_BlockingQueue n` by calls of one thread that all returned, whose inner buffer is
empty and in which `BlockingQueue_enq` does not block (`empty_slots > 0`), for every
non-NULL `x` the calls `BlockingQueue_enq(x)`, `BlockingQueue_deq`,
`BlockingQueue_isEmpty` all return, and they return true, `x` itself, and true. -/
theorem BlockingQueue_round_trip (heap : Nat → Ptr) (n : Int) (ops : List Op)
    (b0 b : BlockingQueue) (rs : List Ret) (x : Ptr) (hn : 0 < n)
    (hnew : new_BlockingQueue (Env.allOk heap) n = Created.ok b0)
    (hrun : BlockingQueue_run b0 ops = some (rs, b))
    (hempty : b.queue.current_size = 0) (hs : 0 < b.empty_slots) (hx : x ≠ NULL) :
    ∃ b', BlockingQueue_run b [Op.enq x, Op.deq, Op.isEmpty] =
      some ([Ret.bool true, Ret.ptr x, Ret.bool true], b') := by
  obtain ⟨hm, hwf, _, _⟩ := BlockingQueue_reached heap n ops b0 b rs hn hnew hrun
  exact BlockingQueue_round_trip_WF b x hm hwf hempty hs hx

/-- Witness of C24: capacity 2, the state reached after one enqueue and one dequeue,
then the round trip of the element 9. -/
theorem BlockingQueue_round_trip_witness :
    (0 : Int) < 2 ∧
    new_BlockingQueue (Env.allOk zeroHeap) 2 = Created.ok fresh2 ∧
    BlockingQueue_run fresh2 [Op.enq 5, Op.deq] =
      some ([Ret.bool true, Ret.ptr 5], cycled2) ∧
    cycled2.queue.current_size = 0 ∧ 0 < cycled2.empty_slots ∧ (9 : Ptr) ≠ NULL ∧
    ∃ b', BlockingQueue_run cycled2 [Op.enq 9, Op.deq, Op.isEmpty] =
      some ([Ret.bool true, Ret.ptr 9, Ret.bool true], b') :=
  ⟨by decide, by decide, by decide, by decide, by decide, by decide,
    BlockingQueue_round_trip zeroHeap 2 [Op.enq 5, Op.deq] fresh2 cycled2
      [Ret.bool true, Ret.ptr 5] 9 (by decide) (by decide) (by decide) (by decide)
      (by decide) (by decide)⟩

/-- Enqueueing a list of non-NULL elements that fits, on a blocking queue with a free
mutex, a well-formed inner buffer and enough units in `empty_slots`: every call
returns true and the elements are appended in order. -/
theorem BlockingQueue_run_enqs_WF (l : List Ptr) (b : BlockingQueue) (hm : b.mutex = false)
    (hwf : b.queue.WF) (hl : l.length ≤ b.empty_slots)
    (hroom : b.queue.current_size + (l.length : Int) ≤ b.queue.max_size)
    (hnn : ∀ a ∈ l, a ≠ NULL) :
    ∃ b1, BlockingQueue_run b (l.map Op.enq) =
        some (List.replicate l.length (Ret.bool true), b1) ∧
      b1.mutex = false ∧ b1.queue.WF ∧ b1.queue.contents = b.queue.contents ++ l ∧
      b1.queue.max_size = b.queue.max_size ∧
      b1.empty_slots = b.empty_slots - l.length ∧
      b1.full_slots = b.full_slots + l.length ∧ b1.max_size = b.max_size := by
  obtain ⟨h1, h2, h3⟩ := Queue_enqAll_spec l b.queue hwf hroom hnn
  have hrun := BlockingQueue_run_enqs l b hm hl
  rw [h1, List.map_replicate] at hrun
  have hmax := (BlockingQueue_run_inner _ _ _ _ hm hrun).2.1
  refine ⟨_, hrun, rfl, h2, h3, ?_, rfl, rfl, rfl⟩
  have hq : (Queue_enqAll b.queue l).2 = (Queue_run b.queue (l.map Op.enq)).2 := hmax
  show (Queue_enqAll b.queue l).2.max_size = b.queue.max_size
  rw [hq]
  exact (Queue_run_WF _ _ hwf).2

/-- Dequeueing everything a blocking queue holds, with a free mutex, a well-formed
inner buffer and enough units in `full_slots`: the elements come out oldest first and
the inner buffer ends empty. -/
theorem BlockingQueue_run_deqs_WF (l : List Ptr) (b : BlockingQueue) (hm : b.mutex = false)
    (hwf : b.queue.WF) (hc : b.queue.contents = l) (hl : l.length ≤ b.full_slots) :
    ∃ b2, BlockingQueue_run b (List.replicate l.length Op.deq) =
        some (l.map Ret.ptr, b2) ∧
      b2.mutex = false ∧ b2.queue.current_size = 0 ∧
      b2.full_slots = b.full_slots - l.length ∧
      b2.empty_slots = b.empty_slots + l.length ∧ b2.max_size = b.max_size := by
  obtain ⟨h1, h2⟩ := Queue_deqN_spec l b.queue hwf hc
  have hrun := BlockingQueue_run_deqs l.length b hm hl
  rw [h1] at hrun
  exact ⟨_, hrun, rfl, h2, rfl, rfl, rfl⟩

/-- The blocking queue made by `new_BlockingQueue n`, `n > 0`: its mutex is free, its
inner buffer is well formed and holds nothing, and its counters are `0` and `n`. -/
theorem new_BlockingQueue_start (heap : Nat → Ptr) (n : Int) (hn : 0 < n) :
    ∃ b0, new_BlockingQueue (Env.allOk heap) n = Created.ok b0 ∧
      b0.mutex = false ∧ b0.queue.WF ∧ b0.queue.contents = [] ∧
      b0.queue.current_size = 0 ∧ b0.queue.max_size = n ∧
      b0.full_slots = 0 ∧ b0.empty_slots = n.toNat ∧ b0.max_size = n := by
  obtain ⟨q0, hq, hb⟩ := new_BlockingQueue_ok heap n hn
  obtain ⟨q0', hq', hwf, hc, hmax, hz⟩ := new_Queue_spec heap n hn
  rw [hq] at hq'
  cases hq'
  exact ⟨_, hb, rfl, hwf, hc, hz, hmax, rfl, rfl, rfl⟩

/-- C25: FIFO order of the blocking queue.  For every capacity `n > 0` and every list
`l` of `k ≤ n` non-NULL elements, on the queue made by `new_BlockingQueue n` the `k`
calls `BlockingQueue_enq` on the elements of `l` all return, with true; the `k` calls
to `BlockingQueue_deq` that follow all return, with the elements of `l` in order; and
the final state has an empty buffer, `full_slots = 0` and `empty_slots = n`. -/
theorem BlockingQueue_fifo (heap : Nat → Ptr) (n : Int) (l : List Ptr) (hn : 0 < n)
    (hk : (l.length : Int) ≤ n) (hl : ∀ a ∈ l, a ≠ NULL) :
    ∃ b0 b1 b2, new_BlockingQueue (Env.allOk heap) n = Created.ok b0 ∧
      BlockingQueue_run b0 (l.map Op.enq) =
        some (List.replicate l.length (Ret.bool true), b1) ∧
      BlockingQueue_run b1 (List.replicate l.length Op.deq) = some (l.map Ret.ptr, b2) ∧
      b2.queue.current_size = 0 ∧ b2.full_slots = 0 ∧ (b2.empty_slots : Int) = n := by
  obtain ⟨b0, hb, hm, hwf, hc, hz, hmax, hf, he, _⟩ := new_BlockingQueue_start heap n hn
  obtain ⟨b1, r1, m1, w1, c1, _, e1, f1, _⟩ :=
    BlockingQueue_run_enqs_WF l b0 hm hwf (by rw [he]; omega) (by rw [hz, hmax]; omega) hl
  rw [hc, List.nil_append] at c1
  obtain ⟨b2, r2, _, z2, f2, e2, _⟩ :=
    BlockingQueue_run_deqs_WF l b1 m1 w1 c1 (by rw [f1]; omega)
  refine ⟨b0, b1, b2, hb, r1, r2, z2, ?_, ?_⟩
  · rw [f2, f1, hf]; omega
  · rw [e2, e1, he]; omega

/-- Witness of C25: two elements through a blocking queue of capacity 2. -/
theorem BlockingQueue_fifo_witness :
    (0 : Int) < 2 ∧ (([31, 32] : List Ptr).length : Int) ≤ 2 ∧
    (∀ a ∈ ([31, 32] : List Ptr), a ≠ NULL) ∧
    ∃ b0 b1 b2, new_BlockingQueue (Env.allOk zeroHeap) 2 = Created.ok b0 ∧
      BlockingQueue_run b0 (([31, 32] : List Ptr).map Op.enq) =
        some (List.replicate ([31, 32] : List Ptr).length (Ret.bool true), b1) ∧
      BlockingQueue_run b1 (List.replicate ([31, 32] : List Ptr).length Op.deq) =
        some (([31, 32] : List Ptr).map Ret.ptr, b2) ∧
      b2.queue.current_size = 0 ∧ b2.full_slots = 0 ∧ (b2.empty_slots : Int) = 2 :=
  ⟨by decide, by decide, by decide,
    BlockingQueue_fifo zeroHeap 2 [31, 32] (by decide) (by decide) (by decide)⟩

/-- C26: capacity boundary of the blocking queue.  For every `N > 0` and every list
`a :: rest` of `N` non-NULL elements, on the queue made by `new_BlockingQueue N` the `N`
enqueues all return true and leave `BlockingQueue_size = N`; then `empty_slots = 0`
and a further `BlockingQueue_enq` blocks; `BlockingQueue_deq` returns `a`, the first
element enqueued; and after it the further enqueue of a non-NULL `x` returns true. -/
theorem BlockingQueue_capacity_boundary (heap : Nat → Ptr) (n : Int) (a : Ptr)
    (rest : List Ptr) (x : Ptr) (hn : 0 < n) (hlen : ((a :: rest).length : Int) = n)
    (hl : ∀ y ∈ a :: rest, y ≠ NULL) (hx : x ≠ NULL) :
    ∃ b0 b1 b2 b3, new_BlockingQueue (Env.allOk heap) n = Created.ok b0 ∧
      BlockingQueue_run b0 ((a :: rest).map Op.enq) =
        some (List.replicate (a :: rest).length (Ret.bool true), b1) ∧
      BlockingQueue_size b1 = some (n, b1) ∧
      b1.empty_slots = 0 ∧ BlockingQueue_enq b1 x = none ∧
      BlockingQueue_deq b1 = some (a, b2) ∧
      BlockingQueue_enq b2 x = some (true, b3) := by
  obtain ⟨b0, hb, hm, hwf, hc, hz, hmax, hf, he, _⟩ := new_BlockingQueue_start heap n hn
  obtain ⟨b1, r1, m1, w1, c1, x1, e1, f1, _⟩ :=
    BlockingQueue_run_enqs_WF (a :: rest) b0 hm hwf (by rw [he]; omega)
      (by rw [hz, hmax]; omega) hl
  rw [hc, List.nil_append] at c1
  have hsz : b1.queue.current_size = n := by
    have h1 := length_contents b1.queue
    rw [c1] at h1
    have h0 : 0 ≤ b1.queue.current_size := w1.2.2.2.2.2.2.1
    omega
  have he0 : b1.empty_slots = 0 := by rw [e1, he]; omega
  have hf1 : 0 < b1.full_slots := by
    rw [f1]
    simp only [List.length_cons]
    omega
  obtain ⟨d1, d2, d3, d4⟩ := Queue_deq_ok b1.queue w1 (by omega)
  rw [c1] at d2
  have hd : (Queue_deq b1.queue).1 = a := (List.cons.inj d2).1.symm
  have s2 := BlockingQueue_deq_eq b1 m1 hf1
  rw [hd] at s2
  have hroom : (Queue_deq b1.queue).2.current_size ≠ (Queue_deq b1.queue).2.max_size := by
    rw [d4, d3, x1, hmax, hsz]
    omega
  obtain ⟨t1, _, _⟩ := Queue_enq_true (Queue_deq b1.queue).2 x hroom hx
  have s3 := BlockingQueue_enq_eq
    { b1 with
        queue := (Queue_deq b1.queue).2
        full_slots := b1.full_slots - 1
        empty_slots := b1.empty_slots + 1
        mutex := false } x rfl (Nat.succ_pos _)
  simp only [t1] at s3
  refine ⟨b0, b1, _, _, hb, r1, ?_, he0, BlockingQueue_enq_blocks b1 x he0, s2, s3⟩
  rw [BlockingQueue_size_eq b1 m1]
  show some (b1.queue.current_size, b1) = some (n, b1)
  rw [hsz]

/-- Witness of C26: capacity 2, the elements 41 and 42, then 43. -/
theorem BlockingQueue_capacity_boundary_witness :
    (0 : Int) < 2 ∧ (((41 : Ptr) :: [42]).length : Int) = 2 ∧
    (∀ y ∈ ((41 : Ptr) :: [42]), y ≠ NULL) ∧ (43 : Ptr) ≠ NULL ∧
    ∃ b0 b1 b2 b3, new_BlockingQueue (Env.allOk zeroHeap) 2 = Created.ok b0 ∧
      BlockingQueue_run b0 (((41 : Ptr) :: [42]).map Op.enq) =
        some (List.replicate ((41 : Ptr) :: [42]).length (Ret.bool true), b1) ∧
      BlockingQueue_size b1 = some (2, b1) ∧
      b1.empty_slots = 0 ∧ BlockingQueue_enq b1 43 = none ∧
      BlockingQueue_deq b1 = some (41, b2) ∧
      BlockingQueue_enq b2 43 = some (true, b3) :=
  ⟨by decide, by decide, by decide, by decide,
    BlockingQueue_capacity_boundary zeroHeap 2 41 [42] 43 (by decide) (by decide)
      (by decide) (by decide)⟩

/-- C27: on every state reached from `new_BlockingQueue n` by calls of one thread that
all returned, holding `K` elements with `0 ≤ K ≤ n`: whenever `BlockingQueue_clear`
returns, `BlockingQueue_size` then returns 0 and `BlockingQueue_isEmpty` returns true;
and `BlockingQueue_clear` does return when the capacity is below `INT_MAX`, where the
loop bound `max_size + 1` is an `int` and no `sem_post` passes `SEM_VALUE_MAX`. -/
theorem BlockingQueue_clear_empties (heap : Nat → Ptr) (n : Int) (ops : List Op)
    (b0 b : BlockingQueue) (rs : List Ret) (hn : 0 < n)
    (hnew : new_BlockingQueue (Env.allOk heap) n = Created.ok b0)
    (hrun : BlockingQueue_run b0 ops = some (rs, b)) :
    0 ≤ b.queue.current_size ∧ b.queue.current_size ≤ n ∧
    (n < INT_MAX → ∃ b', BlockingQueue_clear b = some b') ∧
    (∀ b', BlockingQueue_clear b = some b' →
      BlockingQueue_size b' = some (0, b') ∧
      BlockingQueue_isEmpty b' = some (true, b')) := by
  obtain ⟨hm, hwf, hmax, hbmax⟩ := BlockingQueue_reached heap n ops b0 b rs hn hnew hrun
  have h0 : 0 ≤ b.queue.current_size := hwf.2.2.2.2.2.2.1
  have h1 : b.queue.current_size ≤ b.queue.max_size := hwf.2.2.2.2.2.2.2.1
  refine ⟨h0, by omega, ?_, ?_⟩
  · intro hbound
    exact ⟨_, BlockingQueue_clear_eq b hm (by rw [hbmax]; exact hbound)⟩
  · intro b' hb'
    rw [(BlockingQueue_clear_some b b' hb').2.1]
    constructor
    · rw [BlockingQueue_size_eq _ rfl]
      rfl
    · rw [BlockingQueue_isEmpty_eq _ rfl]
      rfl

/-- Witness of C27: capacity 2, the state holding one element; the clear returns and
leaves the queue empty. -/
theorem BlockingQueue_clear_empties_witness :
    (0 : Int) < 2 ∧
    new_BlockingQueue (Env.allOk zeroHeap) 2 = Created.ok fresh2 ∧
    BlockingQueue_run fresh2 [Op.enq 5] = some ([Ret.bool true], holding2) ∧
    (2 : Int) < INT_MAX ∧
    ∃ b', BlockingQueue_clear holding2 = some b' ∧
      BlockingQueue_size b' = some (0, b') ∧
      BlockingQueue_isEmpty b' = some (true, b') :=
  ⟨by decide, by decide, by decide, by decide,
    ((BlockingQueue_clear_empties zeroHeap 2 [Op.enq 5] fresh2 holding2 [Ret.bool true]
      (by decide) (by decide) (by decide)).2.2.1 (by decide)).elim
      (fun b' hb' => ⟨b', hb',
        (BlockingQueue_clear_empties zeroHeap 2 [Op.enq 5] fresh2 holding2 [Ret.bool true]
          (by decide) (by decide) (by decide)).2.2.2 b' hb'⟩)⟩

/-- C28: for every capacity `N > 0`, on every state reached from `new_BlockingQueue N`
by calls of one thread that all returned: whenever `BlockingQueue_clear` returns, the
`N` calls `BlockingQueue_enq` with non-NULL elements that follow all return, with true,
and leave `BlockingQueue_size = N`; and `BlockingQueue_clear` does return when `N` is
below `INT_MAX`, where the loop bound `max_size + 1` is an `int` and no `sem_post`
passes `SEM_VALUE_MAX`. -/
theorem BlockingQueue_enq_after_clear (heap : Nat → Ptr) (n : Int) (ops : List Op)
    (b0 b : BlockingQueue) (rs : List Ret) (l : List Ptr) (hn : 0 < n)
    (hnew : new_BlockingQueue (Env.allOk heap) n = Created.ok b0)
    (hrun : BlockingQueue_run b0 ops = some (rs, b))
    (hlen : (l.length : Int) = n) (hl : ∀ a ∈ l, a ≠ NULL) :
    (n < INT_MAX → ∃ b1, BlockingQueue_clear b = some b1) ∧
    (∀ b1, BlockingQueue_clear b = some b1 →
      ∃ b2, BlockingQueue_run b1 (l.map Op.enq) =
          some (List.replicate l.length (Ret.bool true), b2) ∧
        BlockingQueue_size b2 = some (n, b2)) := by
  obtain ⟨hm, hwf, hmax, hbmax⟩ := BlockingQueue_reached heap n ops b0 b rs hn hnew hrun
  refine ⟨fun hbound => ⟨_, BlockingQueue_clear_eq b hm (by rw [hbmax]; exact hbound)⟩, ?_⟩
  intro b1 hb1
  rw [(BlockingQueue_clear_some b b1 hb1).2.1]
  obtain ⟨cw, cc, cm, cz⟩ := Queue_clear_spec b.queue hwf
  obtain ⟨b2, r2, m2, w2, c2, _, _, _, _⟩ :=
    BlockingQueue_run_enqs_WF l
      { b with
          queue := Queue_clear b.queue
          full_slots := 0
          empty_slots := b.empty_slots + ((b.max_size + 1) - (b.empty_slots : Int)).toNat
          mutex := false } rfl cw
      (by
        show l.length ≤ b.empty_slots + ((b.max_size + 1) - (b.empty_slots : Int)).toNat
        omega)
      (by
        show (Queue_clear b.queue).current_size + (l.length : Int) ≤
          (Queue_clear b.queue).max_size
        rw [cz, cm, hmax]
        omega) hl
  have c2' : b2.queue.contents = l := by
    rw [c2]
    show (Queue_clear b.queue).contents ++ l = l
    rw [cc, List.nil_append]
  have hsz : b2.queue.current_size = n := by
    have h1 := length_contents b2.queue
    rw [c2'] at h1
    have h0 : 0 ≤ b2.queue.current_size := w2.2.2.2.2.2.2.1
    omega
  refine ⟨b2, r2, ?_⟩
  rw [BlockingQueue_size_eq b2 m2]
  show some (b2.queue.current_size, b2) = some (n, b2)
  rw [hsz]

/-- Witness of C28: capacity 2, the state holding one element; the clear returns and
the two enqueues that follow return true. -/
theorem BlockingQueue_enq_after_clear_witness :
    (0 : Int) < 2 ∧
    new_BlockingQueue (Env.allOk zeroHeap) 2 = Created.ok fresh2 ∧
    BlockingQueue_run fresh2 [Op.enq 5] = some ([Ret.bool true], holding2) ∧
    (([51, 52] : List Ptr).length : Int) = 2 ∧ (∀ a ∈ ([51, 52] : List Ptr), a ≠ NULL) ∧
    (2 : Int) < INT_MAX ∧
    ∃ b1 b2, BlockingQueue_clear holding2 = some b1 ∧
      BlockingQueue_run b1 (([51, 52] : List Ptr).map Op.enq) =
        some (List.replicate ([51, 52] : List Ptr).length (Ret.bool true), b2) ∧
      BlockingQueue_size b2 = some (2, b2) :=
  ⟨by decide, by decide, by decide, by decide, by decide, by decide,
    ((BlockingQueue_enq_after_clear zeroHeap 2 [Op.enq 5] fresh2 holding2 [Ret.bool true]
      [51, 52] (by decide) (by decide) (by decide) (by decide) (by decide)).1
      (by decide)).elim
      (fun b1 hb1 =>
        ((BlockingQueue_enq_after_clear zeroHeap 2 [Op.enq 5] fresh2 holding2
          [Ret.bool true] [51, 52] (by decide) (by decide) (by decide) (by decide)
          (by decide)).2 b1 hb1).elim
          (fun b2 hb2 => ⟨b1, b2, hb1, hb2.1, hb2.2⟩))⟩

/-- C29: on every blocking queue whose mutex is free, `BlockingQueue_size` returns
`Queue_size` of the inner buffer and `BlockingQueue_isEmpty` returns `Queue_isEmpty` of
the inner buffer, and after either call the blocking queue (inner buffer, `full_slots`,
`empty_slots` and the rest) is what it was. -/
theorem BlockingQueue_size_isEmpty_pure (b : BlockingQueue) (hm : b.mutex = false) :
    BlockingQueue_size b = some (Queue_size b.queue, b) ∧
    BlockingQueue_isEmpty b = some (Queue_isEmpty b.queue, b) :=
  ⟨BlockingQueue_size_eq b hm, BlockingQueue_isEmpty_eq b hm⟩

/-- Witness of C29: the blocking queue of capacity 2 holding one element. -/
theorem BlockingQueue_size_isEmpty_pure_witness :
    holding2.mutex = false ∧
    BlockingQueue_size holding2 = some (Queue_size holding2.queue, holding2) ∧
    BlockingQueue_isEmpty holding2 = some (Queue_isEmpty holding2.queue, holding2) :=
  ⟨rfl, BlockingQueue_size_isEmpty_pure holding2 rfl⟩

/-! ## The state machine of the queue -/

/-- C30, as stated, fails: a successful call is not always one of the listed moves.
On the queue of capacity 3 reached by one enqueue, a second enqueue returns true and
goes `Partial → Partial`; on the queue of capacity 3 holding two elements, a dequeue
returns an element and goes `Partial → Partial`; on the queue made by `new_Queue(1)` an
enqueue returns true and goes `Empty → Full`, and the dequeue that follows goes
`Full → Empty`. -/
theorem Queue_state_moves_not_listed :
    (new_Queue zeroHeap 3).map (fun q =>
        ((Queue_run q [Op.enq 5]).2.state,
          (Queue_enq (Queue_run q [Op.enq 5]).2 6).1,
          (Queue_enq (Queue_run q [Op.enq 5]).2 6).2.state)) =
      some (QState.Partial, true, QState.Partial) ∧
    ¬ QState.enqListed QState.Partial QState.Partial ∧
    (new_Queue zeroHeap 3).map (fun q =>
        ((Queue_run q [Op.enq 5, Op.enq 6]).2.state,
          (Queue_deq (Queue_run q [Op.enq 5, Op.enq 6]).2).1,
          (Queue_deq (Queue_run q [Op.enq 5, Op.enq 6]).2).2.state)) =
      some (QState.Partial, 5, QState.Partial) ∧
    ¬ QState.deqListed QState.Partial QState.Partial ∧
    (new_Queue zeroHeap 1).map (fun q =>
        (q.state, (Queue_enq q 5).1, (Queue_enq q 5).2.state,
          (Queue_deq (Queue_enq q 5).2).1, (Queue_deq (Queue_enq q 5).2).2.state)) =
      some (QState.Empty, true, QState.Full, 5, QState.Empty) ∧
    ¬ QState.enqListed QState.Empty QState.Full ∧
    ¬ QState.deqListed QState.Full QState.Empty := by
  decide

/-- C30, amended: on a queue whose count lies in `[0, max_size]` (so on every queue
of capacity `n > 0` reached from `new_Queue n`), a successful enqueue (one that returns true) raises the count by
exactly one and never starts in `Full`: from `Empty` it leads to `Partial`, or to `Full`
when the capacity is 1; from `Partial` it leads to `Full` when the count reaches the
capacity and to `Partial` otherwise.  A successful dequeue (one on a non-empty queue)
lowers the count by exactly one and never starts in `Empty`: from `Full` it leads to
`Partial`, or to `Empty` when the capacity is 1; from `Partial` it leads to `Empty` when
the count reaches 0 and to `Partial` otherwise. -/
theorem Queue_state_machine (q : Queue) (e : Ptr)
    (h0 : 0 ≤ q.current_size) (h1 : q.current_size ≤ q.max_size) :
    ((Queue_enq q e).1 = true →
      (Queue_enq q e).2.current_size = q.current_size + 1 ∧
      q.state ≠ QState.Full ∧
      (q.state = QState.Empty →
        (Queue_enq q e).2.state = if q.max_size = 1 then QState.Full else QState.Partial) ∧
      (q.state = QState.Partial →
        (Queue_enq q e).2.state =
          if q.current_size + 1 = q.max_size then QState.Full else QState.Partial)) ∧
    (q.current_size ≠ 0 →
      (Queue_deq q).2.current_size = q.current_size - 1 ∧
      q.state ≠ QState.Empty ∧
      (q.state = QState.Full →
        (Queue_deq q).2.state = if q.max_size = 1 then QState.Empty else QState.Partial) ∧
      (q.state = QState.Partial →
        (Queue_deq q).2.state =
          if q.current_size = 1 then QState.Empty else QState.Partial)) := by
  constructor
  · intro hok
    by_cases hcond : q.current_size = q.max_size ∨ e = NULL
    · rw [Queue_enq_fail q e hcond] at hok
      exact Bool.noConfusion hok
    · have hroom : q.current_size ≠ q.max_size := fun hh => hcond (Or.inl hh)
      obtain ⟨_, hsz, _⟩ := Queue_enq_true q e hroom (fun hh => hcond (Or.inr hh))
      have hmax : (Queue_enq q e).2.max_size = q.max_size := by
        unfold Queue_enq
        rw [if_neg hcond]
      refine ⟨hsz, ?_, ?_, ?_⟩
      · unfold Queue.state
        split_ifs <;> simp
      · intro hs
        have hz : q.current_size = 0 := by
          unfold Queue.state at hs
          split_ifs at hs
          assumption
        unfold Queue.state
        rw [hsz, hmax, hz]
        split_ifs <;> first | rfl | omega
      · intro hs
        have hz : q.current_size ≠ 0 := by
          unfold Queue.state at hs
          split_ifs at hs
          assumption
        unfold Queue.state
        rw [hsz, hmax]
        split_ifs <;> first | rfl | omega
  · intro hne
    obtain ⟨_, hsz, _⟩ := Queue_deq_nonempty q hne
    have hE : ¬ (Queue_isEmpty q = true) := by simp [Queue_isEmpty, hne]
    have hmax : (Queue_deq q).2.max_size = q.max_size := by
      unfold Queue_deq
      rw [if_neg hE]
    refine ⟨hsz, ?_, ?_, ?_⟩
    · unfold Queue.state
      rw [if_neg hne]
      split_ifs <;> simp
    · intro hs
      have hz : q.current_size = q.max_size := by
        unfold Queue.state at hs
        split_ifs at hs
        assumption
      unfold Queue.state
      rw [hsz, hmax, hz]
      split_ifs <;> first | rfl | omega
    · intro hs
      have hz : q.current_size ≠ q.max_size := by
        unfold Queue.state at hs
        split_ifs at hs
        assumption
      unfold Queue.state
      rw [hsz, hmax]
      split_ifs <;> first | rfl | omega

/-- Witness of the amended C30: the queue of capacity 3 holding two elements; the
enqueue of 7 fills it and a dequeue leaves it partial. -/
theorem Queue_state_machine_witness :
    0 ≤ twoOfThree.current_size ∧
    twoOfThree.current_size ≤ twoOfThree.max_size ∧
    (Queue_enq twoOfThree 7).1 = true ∧ twoOfThree.state = QState.Partial ∧
    (Queue_enq twoOfThree 7).2.state = QState.Full ∧
    (Queue_deq twoOfThree).2.state = QState.Partial ∧
    (Queue_enq twoOfThree 7).2.current_size = twoOfThree.current_size + 1 :=
  ⟨by decide, by decide, by decide, by decide, by decide, by decide,
    ((Queue_state_machine twoOfThree 7 (by decide) (by decide)).1 (by decide)).1⟩


/-! ## Invariants of the ring buffer along runs -/

/-- Every queue reached from `new_Queue n` represents the reference queue reached by
the same calls, and keeps the capacity `n`. -/
theorem Sim_reached (heap : Nat → Ptr) (n : Int) (ops : List Op) (hn : 0 < n) :
    ∃ q0, new_Queue heap n = some q0 ∧
      Sim (Queue_run q0 ops).2 ((ListQueue.new n).run ops).2 ∧
      (Queue_run q0 ops).2.max_size = n := by
  obtain ⟨q0, hq, hsim⟩ := Sim_new heap n hn
  obtain ⟨_, _, _, hmax⟩ := new_Queue_fields heap n q0 hq
  refine ⟨q0, hq, (Sim_run ops q0 _ hsim).2, ?_⟩
  rw [(Queue_run_WF ops q0 hsim.1).2, hmax]

/-- On a well-formed queue that holds something, the slot at `rear` holds the newest
element. -/
theorem contents_getLast (q : Queue) (hwf : q.WF) (hpos : 0 < q.current_size) :
    q.contents.getLast? = some (readSlot q.array q.rear) := by
  obtain ⟨hn, hlen, hf0, hf1, hr0, hr1, hs0, hs1, hshape⟩ := hwf
  have hk : q.current_size.toNat - 1 < q.current_size.toNat := by omega
  rw [List.getLast?_eq_getElem?, length_contents]
  unfold Queue.contents
  rw [List.getElem?_map, List.getElem?_range hk, Option.map_some']
  congr 2
  have hcast : ((q.current_size.toNat - 1 : Nat) : Int) = q.current_size - 1 := by omega
  rw [hcast]
  rw [tmod_wrap _ _ (by omega) hn (by omega), tmod_wrap _ _ (by omega) hn (by omega)] at hshape
  rw [tmod_wrap _ _ (by omega) hn (by omega)]
  split_ifs at hshape ⊢ <;> omega

/-- C34: shape of the ring buffer.  In every state reached from `new_Queue n`, `n > 0`,
by any sequence of calls, `(rear + 1) mod max_size = (front + current_size) mod
max_size`; the `current_size` slots read from `front` onwards, circularly, hold exactly
the elements of the reference queue, oldest first; and whenever `current_size > 0` the
slot at `rear` holds the last of them, the most recently enqueued one. -/
theorem Queue_shape_invariant (heap : Nat → Ptr) (n : Int) (ops : List Op) (hn : 0 < n) :
    ∃ q0, new_Queue heap n = some q0 ∧
      ((Queue_run q0 ops).2.rear + 1) % (Queue_run q0 ops).2.max_size =
        ((Queue_run q0 ops).2.front + (Queue_run q0 ops).2.current_size) %
          (Queue_run q0 ops).2.max_size ∧
      (Queue_run q0 ops).2.contents = ((ListQueue.new n).run ops).2.items ∧
      ((Queue_run q0 ops).2.contents.length : Int) = (Queue_run q0 ops).2.current_size ∧
      (0 < (Queue_run q0 ops).2.current_size →
        ((ListQueue.new n).run ops).2.items.getLast? =
          some (readSlot (Queue_run q0 ops).2.array (Queue_run q0 ops).2.rear)) := by
  obtain ⟨q0, hq, hsim, _⟩ := Sim_reached heap n ops hn
  obtain ⟨hwf, hc, _, _⟩ := hsim
  have hwf' := hwf
  obtain ⟨hn', hlen, hf0, hf1, hr0, hr1, hs0, hs1, hshape⟩ := hwf'
  refine ⟨q0, hq, ?_, hc, ?_, ?_⟩
  · rw [← Int.tmod_eq_emod (by omega) (le_of_lt hn'),
      ← Int.tmod_eq_emod (by omega) (le_of_lt hn')]
    exact hshape
  · rw [length_contents]
    omega
  · intro hpos
    rw [← hc]
    exact contents_getLast _ hwf hpos

/-- Witness of C34: capacity 3, a run in which `front` and `rear` wrap round. -/
theorem Queue_shape_invariant_witness :
    (0 : Int) < 3 ∧
    ∃ q0, new_Queue zeroHeap 3 = some q0 ∧
      ((Queue_run q0 [Op.enq 11, Op.enq 12, Op.deq, Op.enq 13, Op.enq 14, Op.deq]).2.rear
          + 1) %
          (Queue_run q0 [Op.enq 11, Op.enq 12, Op.deq, Op.enq 13, Op.enq 14, Op.deq]).2.max_size =
        ((Queue_run q0 [Op.enq 11, Op.enq 12, Op.deq, Op.enq 13, Op.enq 14, Op.deq]).2.front +
          (Queue_run q0
            [Op.enq 11, Op.enq 12, Op.deq, Op.enq 13, Op.enq 14, Op.deq]).2.current_size) %
          (Queue_run q0 [Op.enq 11, Op.enq 12, Op.deq, Op.enq 13, Op.enq 14, Op.deq]).2.max_size ∧
      (Queue_run q0 [Op.enq 11, Op.enq 12, Op.deq, Op.enq 13, Op.enq 14, Op.deq]).2.contents =
        ((ListQueue.new 3).run
          [Op.enq 11, Op.enq 12, Op.deq, Op.enq 13, Op.enq 14, Op.deq]).2.items ∧
      ((Queue_run q0
          [Op.enq 11, Op.enq 12, Op.deq, Op.enq 13, Op.enq 14, Op.deq]).2.contents.length : Int) =
        (Queue_run q0
          [Op.enq 11, Op.enq 12, Op.deq, Op.enq 13, Op.enq 14, Op.deq]).2.current_size ∧
      (0 < (Queue_run q0
          [Op.enq 11, Op.enq 12, Op.deq, Op.enq 13, Op.enq 14, Op.deq]).2.current_size →
        ((ListQueue.new 3).run
          [Op.enq 11, Op.enq 12, Op.deq, Op.enq 13, Op.enq 14, Op.deq]).2.items.getLast? =
          some (readSlot
            (Queue_run q0 [Op.enq 11, Op.enq 12, Op.deq, Op.enq 13, Op.enq 14, Op.deq]).2.array
            (Queue_run q0
              [Op.enq 11, Op.enq 12, Op.deq, Op.enq 13, Op.enq 14, Op.deq]).2.rear)) :=
  ⟨by decide, Queue_shape_invariant zeroHeap 3 _ (by decide)⟩

/-- C35: index safety.  In every state reached from `new_Queue n`, `n > 0`, by any
sequence of calls, `0 ≤ front < max_size` and `0 ≤ rear < max_size`, the slot block has
`max_size` slots, and so the slot `(rear + 1) % max_size` written by `Queue_enq` and the
slot `front` read by `Queue_deq` lie inside the block. -/
theorem Queue_index_safety (heap : Nat → Ptr) (n : Int) (ops : List Op) (hn : 0 < n) :
    ∃ q0, new_Queue heap n = some q0 ∧
      0 ≤ (Queue_run q0 ops).2.front ∧
      (Queue_run q0 ops).2.front < (Queue_run q0 ops).2.max_size ∧
      0 ≤ (Queue_run q0 ops).2.rear ∧
      (Queue_run q0 ops).2.rear < (Queue_run q0 ops).2.max_size ∧
      ((Queue_run q0 ops).2.array.length : Int) = (Queue_run q0 ops).2.max_size ∧
      (Queue_run q0 ops).2.max_size = n ∧
      0 ≤ Int.tmod ((Queue_run q0 ops).2.rear + 1) (Queue_run q0 ops).2.max_size ∧
      Int.tmod ((Queue_run q0 ops).2.rear + 1) (Queue_run q0 ops).2.max_size <
        (Queue_run q0 ops).2.array.length ∧
      (Queue_run q0 ops).2.front < (Queue_run q0 ops).2.array.length := by
  obtain ⟨q0, hq, hsim, hmax⟩ := Sim_reached heap n ops hn
  obtain ⟨hn', hlen, hf0, hf1, hr0, hr1, hs0, hs1, _⟩ := hsim.1
  have hr : Int.tmod ((Queue_run q0 ops).2.rear + 1) (Queue_run q0 ops).2.max_size =
      if (Queue_run q0 ops).2.rear + 1 < (Queue_run q0 ops).2.max_size
      then (Queue_run q0 ops).2.rear + 1
      else (Queue_run q0 ops).2.rear + 1 - (Queue_run q0 ops).2.max_size := by
    rw [tmod_wrap _ _ (by omega) hn' (by omega)]
  refine ⟨q0, hq, hf0, hf1, hr0, hr1, hlen, hmax, ?_, ?_, by omega⟩
  · rw [hr]; split <;> omega
  · rw [hr]; split <;> omega

/-- Witness of C35: capacity 3, a run in which `front` and `rear` wrap round. -/
theorem Queue_index_safety_witness :
    (0 : Int) < 3 ∧
    ∃ q0, new_Queue zeroHeap 3 = some q0 ∧
      0 ≤ (Queue_run q0 [Op.enq 11, Op.enq 12, Op.enq 13, Op.deq, Op.enq 14]).2.front ∧
      (Queue_run q0 [Op.enq 11, Op.enq 12, Op.enq 13, Op.deq, Op.enq 14]).2.front <
        (Queue_run q0 [Op.enq 11, Op.enq 12, Op.enq 13, Op.deq, Op.enq 14]).2.max_size ∧
      0 ≤ (Queue_run q0 [Op.enq 11, Op.enq 12, Op.enq 13, Op.deq, Op.enq 14]).2.rear ∧
      (Queue_run q0 [Op.enq 11, Op.enq 12, Op.enq 13, Op.deq, Op.enq 14]).2.rear <
        (Queue_run q0 [Op.enq 11, Op.enq 12, Op.enq 13, Op.deq, Op.enq 14]).2.max_size :=
  ⟨by decide,
    (Queue_index_safety zeroHeap 3 [Op.enq 11, Op.enq 12, Op.enq 13, Op.deq, Op.enq 14]
      (by decide)).imp
      (fun _ h => ⟨h.1, h.2.1, h.2.2.1, h.2.2.2.1, h.2.2.2.2.1⟩)⟩

/-- C36: in every state reached from `new_Queue n`, `n > 0`, by any sequence of calls
(NULL elements included), every occupied slot holds a non-NULL element, and
`Queue_deq` returns NULL exactly when the queue is empty. -/
theorem Queue_occupied_non_null (heap : Nat → Ptr) (n : Int) (ops : List Op) (hn : 0 < n) :
    ∃ q0, new_Queue heap n = some q0 ∧
      (∀ x ∈ (Queue_run q0 ops).2.contents, x ≠ NULL) ∧
      ((Queue_deq (Queue_run q0 ops).2).1 = NULL ↔ (Queue_run q0 ops).2.current_size = 0) := by
  obtain ⟨q0, hq, hsim, _⟩ := Sim_reached heap n ops hn
  obtain ⟨hwf, hc, _, hnn⟩ := hsim
  have hall : ∀ x ∈ (Queue_run q0 ops).2.contents, x ≠ NULL := by
    rw [hc]; exact hnn
  refine ⟨q0, hq, hall, ?_, ?_⟩
  · intro hnull
    by_contra hne
    have hs0 : 0 ≤ (Queue_run q0 ops).2.current_size := hwf.2.2.2.2.2.2.1
    obtain ⟨_, h2, _, _⟩ := Queue_deq_ok _ hwf (by omega)
    apply hall (Queue_deq (Queue_run q0 ops).2).1
    · rw [h2]
      exact List.mem_cons_self _ _
    · exact hnull
  · intro hz
    rw [Queue_deq_empty _ hz]

/-- Witness of C36: capacity 2, a run with a refused NULL and a refused fourth
element. -/
theorem Queue_occupied_non_null_witness :
    (0 : Int) < 2 ∧
    ∃ q0, new_Queue zeroHeap 2 = some q0 ∧
      (∀ x ∈ (Queue_run q0 [Op.enq NULL, Op.enq 5, Op.enq 6, Op.enq 7, Op.deq]).2.contents,
        x ≠ NULL) ∧
      ((Queue_deq (Queue_run q0 [Op.enq NULL, Op.enq 5, Op.enq 6, Op.enq 7, Op.deq]).2).1 =
          NULL ↔
        (Queue_run q0 [Op.enq NULL, Op.enq 5, Op.enq 6, Op.enq 7, Op.deq]).2.current_size =
          0) :=
  ⟨by decide, Queue_occupied_non_null zeroHeap 2 _ (by decide)⟩

/-! ## Lock balance, staged construction, capacity -/

/-- A call on the blocking queue that returns found the mutex free. -/
theorem BlockingQueue_call_mutex_free (b b' : BlockingQueue) (op : Op) (r : Ret)
    (h : BlockingQueue_call b op = some (r, b')) : b.mutex = false := by
  cases hb : b.mutex with
  | false => rfl
  | true =>
    exfalso
    cases op with
    | enq e =>
      simp only [BlockingQueue_call, BlockingQueue_enq, sem_wait, pthread_mutex_lock, hb] at h
      split at h <;> simp at h
    | deq =>
      simp only [BlockingQueue_call, BlockingQueue_deq, sem_wait, pthread_mutex_lock, hb] at h
      split at h <;> simp at h
    | size =>
      simp [BlockingQueue_call, BlockingQueue_size, pthread_mutex_lock, hb] at h
    | isEmpty =>
      simp [BlockingQueue_call, BlockingQueue_isEmpty, pthread_mutex_lock, hb] at h
    | clear =>
      simp [BlockingQueue_call, BlockingQueue_clear, pthread_mutex_lock, hb] at h

theorem Queue_call_max_size (q : Queue) (op : Op) :
    (Queue_call q op).2.max_size = q.max_size := by
  cases op with
  | enq e =>
    show (Queue_enq q e).2.max_size = q.max_size
    unfold Queue_enq
    split <;> rfl
  | deq =>
    show (Queue_deq q).2.max_size = q.max_size
    unfold Queue_deq
    split <;> rfl
  | size => rfl
  | isEmpty => rfl
  | clear => rfl

/-- C37: lock and unlock are balanced.  On a blocking queue whose mutex is not held,
every call (enq, deq, size, isEmpty, clear) that returns leaves the mutex not held;
`BlockingQueue_enq` returns whenever `empty_slots > 0`, with the flag of the inner
`Queue_enq` whether that flag is true or false, and `BlockingQueue_deq` whenever
`full_slots > 0`; `BlockingQueue_size` and `BlockingQueue_isEmpty` always return, and
`BlockingQueue_clear` returns when `max_size` is below `INT_MAX`. -/
theorem BlockingQueue_mutex_balanced (b : BlockingQueue) (hm : b.mutex = false) :
    (∀ op r b', BlockingQueue_call b op = some (r, b') → b'.mutex = false) ∧
    (0 < b.empty_slots → ∀ e, ∃ b',
      BlockingQueue_enq b e = some ((Queue_enq b.queue e).1, b') ∧ b'.mutex = false) ∧
    (0 < b.full_slots → ∃ b',
      BlockingQueue_deq b = some ((Queue_deq b.queue).1, b') ∧ b'.mutex = false) ∧
    (∃ b', BlockingQueue_size b = some (Queue_size b.queue, b') ∧ b'.mutex = false) ∧
    (∃ b', BlockingQueue_isEmpty b = some (Queue_isEmpty b.queue, b') ∧ b'.mutex = false) ∧
    (b.max_size < INT_MAX → ∃ b', BlockingQueue_clear b = some b' ∧ b'.mutex = false) := by
  refine ⟨?_, ?_, ?_, ?_, ?_, ?_⟩
  · intro op r b' h
    exact (BlockingQueue_call_inner b b' op r hm h).2.2.1
  · intro hs e
    exact ⟨_, BlockingQueue_enq_eq b e hm hs, rfl⟩
  · intro hs
    exact ⟨_, BlockingQueue_deq_eq b hm hs, rfl⟩
  · exact ⟨_, BlockingQueue_size_eq b hm, hm⟩
  · exact ⟨_, BlockingQueue_isEmpty_eq b hm, hm⟩
  · intro hbound
    exact ⟨_, BlockingQueue_clear_eq b hm hbound, rfl⟩

/-- Witness of C37: the fresh blocking queue of capacity 2; the enqueue of NULL
returns false and leaves the mutex not held. -/
theorem BlockingQueue_mutex_balanced_witness :
    fresh2.mutex = false ∧ 0 < fresh2.empty_slots ∧
    (Queue_enq fresh2.queue NULL).1 = false ∧
    ∃ b', BlockingQueue_enq fresh2 NULL = some ((Queue_enq fresh2.queue NULL).1, b') ∧
      b'.mutex = false :=
  ⟨by decide, by decide, by decide,
    (BlockingQueue_mutex_balanced fresh2 (by decide)).2.1 (by decide) NULL⟩

/-- C38: the cleanup after a failed initialisation releases the primitive whose
initialisation failed.  With capacity 2: when the mutex initialisation fails,
`cleanup_exit` destroys the inner queue and the mutex; when the initialisation of
`full_slots` fails, it destroys the inner queue, the mutex and `full_slots`; when the
initialisation of `empty_slots` fails, it destroys the inner queue, the mutex,
`full_slots` and `empty_slots`; each time it then frees the structure. -/
theorem new_BlockingQueue_cleanup_overshoots :
    new_BlockingQueue mutexInitFails 2 =
      Created.exited [Resource.queue, Resource.mutex, Resource.self] ∧
    new_BlockingQueue fullInitFails 2 =
      Created.exited [Resource.queue, Resource.mutex, Resource.full_slots, Resource.self] ∧
    new_BlockingQueue emptyInitFails 2 =
      Created.exited [Resource.queue, Resource.mutex, Resource.full_slots,
        Resource.empty_slots, Resource.self] := by
  decide

/-- C39: the capacity is immutable.  No call on the plain queue changes its `max_size`;
no call on the blocking queue that returns changes the `max_size` of the inner queue
or the blocking queue's own `max_size`; and on the queue made by `new_BlockingQueue n`
and on every state reached from it, both `max_size` fields are `n`. -/
theorem max_size_immutable (heap : Nat → Ptr) (n : Int) (ops : List Op)
    (b0 b : BlockingQueue) (rs : List Ret) (hn : 0 < n)
    (hnew : new_BlockingQueue (Env.allOk heap) n = Created.ok b0)
    (hrun : BlockingQueue_run b0 ops = some (rs, b)) :
    (∀ (q : Queue) (op : Op), (Queue_call q op).2.max_size = q.max_size) ∧
    (∀ (c c' : BlockingQueue) (op : Op) (r : Ret),
      BlockingQueue_call c op = some (r, c') →
        c'.queue.max_size = c.queue.max_size ∧ c'.max_size = c.max_size) ∧
    b0.max_size = n ∧ b0.queue.max_size = n ∧
    b.max_size = n ∧ b.queue.max_size = n ∧ b.max_size = b.queue.max_size := by
  obtain ⟨_, _, h3, h4⟩ := BlockingQueue_reached heap n ops b0 b rs hn hnew hrun
  obtain ⟨_, _, i3, i4⟩ := BlockingQueue_reached heap n [] b0 b0 [] hn hnew rfl
  refine ⟨Queue_call_max_size, ?_, i4, i3, h4, h3, by rw [h3, h4]⟩
  intro c c' op r h
  have hm := BlockingQueue_call_mutex_free c c' op r h
  obtain ⟨_, j2, _, j4⟩ := BlockingQueue_call_inner c c' op r hm h
  exact ⟨by rw [j2]; exact Queue_call_max_size _ _, j4⟩

/-- Witness of C39: capacity 2, the state reached by one enqueue. -/
theorem max_size_immutable_witness :
    (0 : Int) < 2 ∧
    new_BlockingQueue (Env.allOk zeroHeap) 2 = Created.ok fresh2 ∧
    BlockingQueue_run fresh2 [Op.enq 5] = some ([Ret.bool true], holding2) ∧
    fresh2.max_size = 2 ∧ fresh2.queue.max_size = 2 ∧
    holding2.max_size = 2 ∧ holding2.queue.max_size = 2 ∧
    holding2.max_size = holding2.queue.max_size :=
  ⟨by decide, by decide, by decide,
    (max_size_immutable zeroHeap 2 [Op.enq 5] fresh2 holding2 [Ret.bool true]
      (by decide) (by decide) (by decide)).2.2⟩

/-! ## The counters stay within the range of a semaphore -/

theorem BlockingQueue_deq_blocks (b : BlockingQueue) (hs : b.full_slots = 0) :
    BlockingQueue_deq b = none := by
  simp only [BlockingQueue_deq, sem_wait, hs, if_true]

/-- A call that returns, made with the mutex free on counters that add up to at most
`SEM_VALUE_MAX`, leaves counters that add up to at most `SEM_VALUE_MAX`. -/
theorem BlockingQueue_call_bounded (b b' : BlockingQueue) (op : Op) (r : Ret)
    (hm : b.mutex = false) (hI : b.full_slots + b.empty_slots ≤ SEM_VALUE_MAX)
    (h : BlockingQueue_call b op = some (r, b')) :
    b'.full_slots + b'.empty_slots ≤ SEM_VALUE_MAX := by
  cases op with
  | enq e =>
    by_cases hs : 0 < b.empty_slots
    · simp only [BlockingQueue_call, BlockingQueue_enq_eq b e hm hs, Option.map_some',
        Option.some.injEq, Prod.mk.injEq] at h
      rw [← h.2]
      show b.full_slots + 1 + (b.empty_slots - 1) ≤ SEM_VALUE_MAX
      omega
    · simp [BlockingQueue_call, BlockingQueue_enq_blocks b e (by omega)] at h
  | deq =>
    by_cases hs : 0 < b.full_slots
    · simp only [BlockingQueue_call, BlockingQueue_deq_eq b hm hs, Option.map_some',
        Option.some.injEq, Prod.mk.injEq] at h
      rw [← h.2]
      show b.full_slots - 1 + (b.empty_slots + 1) ≤ SEM_VALUE_MAX
      omega
    · simp [BlockingQueue_call, BlockingQueue_deq_blocks b (by omega)] at h
  | size =>
    simp only [BlockingQueue_call, BlockingQueue_size_eq b hm, Option.map_some',
      Option.some.injEq, Prod.mk.injEq] at h
    rw [← h.2]
    exact hI
  | isEmpty =>
    simp only [BlockingQueue_call, BlockingQueue_isEmpty_eq b hm, Option.map_some',
      Option.some.injEq, Prod.mk.injEq] at h
    rw [← h.2]
    exact hI
  | clear =>
    cases hc : BlockingQueue_clear b with
    | none => simp [BlockingQueue_call, hc] at h
    | some c =>
      simp only [BlockingQueue_call, hc, Option.map_some', Option.some.injEq,
        Prod.mk.injEq] at h
      obtain ⟨_, hform, hok⟩ := BlockingQueue_clear_some b c hc
      rw [← h.2, hform]
      show 0 + (b.empty_slots + ((b.max_size + 1) - (b.empty_slots : Int)).toNat) ≤
        SEM_VALUE_MAX
      omega

theorem BlockingQueue_run_bounded (ops : List Op) (b b' : BlockingQueue) (rs : List Ret)
    (hm : b.mutex = false) (hI : b.full_slots + b.empty_slots ≤ SEM_VALUE_MAX)
    (hrun : BlockingQueue_run b ops = some (rs, b')) :
    b'.full_slots + b'.empty_slots ≤ SEM_VALUE_MAX := by
  induction ops generalizing b rs with
  | nil =>
    simp only [BlockingQueue_run, Option.some.injEq, Prod.mk.injEq] at hrun
    rw [← hrun.2]
    exact hI
  | cons op ops ih =>
    unfold BlockingQueue_run at hrun
    cases hc : BlockingQueue_call b op with
    | none => rw [hc] at hrun; simp at hrun
    | some p =>
      obtain ⟨r, b1⟩ := p
      simp only [hc] at hrun
      cases hr : BlockingQueue_run b1 ops with
      | none => simp [hr] at hrun
      | some p2 =>
        obtain ⟨rs2, b2⟩ := p2
        simp only [hr, Option.some.injEq, Prod.mk.injEq] at hrun
        have hm1 := (BlockingQueue_call_inner b b1 op r hm hc).2.2.1
        have hI1 := BlockingQueue_call_bounded b b1 op r hm hI hc
        rw [hrun.2] at hr
        exact ih b1 rs2 hm1 hI1 hr

/-- On every state reached from `new_BlockingQueue n`, `n` an `int`, by calls that all
returned, the two counters add up to at most `SEM_VALUE_MAX`: no `sem_post` of
`BlockingQueue_enq` or `BlockingQueue_deq` is asked to pass that limit. -/
theorem BlockingQueue_counters_bounded (heap : Nat → Ptr) (n : Int) (ops : List Op)
    (b0 b : BlockingQueue) (rs : List Ret) (hn : 0 < n) (hint : n ≤ INT_MAX)
    (hnew : new_BlockingQueue (Env.allOk heap) n = Created.ok b0)
    (hrun : BlockingQueue_run b0 ops = some (rs, b)) :
    b.full_slots + b.empty_slots ≤ SEM_VALUE_MAX := by
  obtain ⟨c0, hc0, hm0, _, _, _, _, hf, he, _⟩ := new_BlockingQueue_start heap n hn
  rw [hnew] at hc0
  cases hc0
  apply BlockingQueue_run_bounded ops b0 b rs hm0 _ hrun
  rw [hf, he]
  unfold INT_MAX at hint
  unfold SEM_VALUE_MAX
  omega

/-- The queue made by `new_BlockingQueue(INT_MAX)`, and every state reached from it by
calls that all returned, is one on which `BlockingQueue_clear` does not return. -/
theorem BlockingQueue_clear_at_INT_MAX (heap : Nat → Ptr) (ops : List Op)
    (b0 b : BlockingQueue) (rs : List Ret)
    (hnew : new_BlockingQueue (Env.allOk heap) INT_MAX = Created.ok b0)
    (hrun : BlockingQueue_run b0 ops = some (rs, b)) :
    BlockingQueue_clear b = none := by
  have hpos : 0 < INT_MAX := by decide
  obtain ⟨hm, _, _, hmax⟩ := BlockingQueue_reached heap INT_MAX ops b0 b rs hpos hnew hrun
  have hsum := BlockingQueue_counters_bounded heap INT_MAX ops b0 b rs hpos (le_refl _)
    hnew hrun
  exact BlockingQueue_clear_INT_MAX b hm hmax (by omega)

end BQueue
